import Mathlib

/-!
# logdna: a buffering log-shipping client

A shallow embedding of `logdna.go` (package `logdna`): the configuration, the
client with its buffer of pending lines, the endpoint builder `makeIngestURL`,
and the operations `NewClient`, `Log`, `Size`, `Flush` and `Close`.

Conventions of the embedding.

* Go `int` / `int64` values are `Int`; the one place where 64-bit overflow
  happens (`Time.UnixNano`) wraps explicitly with `wrapInt64`.
* Go `string` is `String`; functions of `net/url` that work on bytes are given
  on characters, escaping a character through its UTF-8 bytes.
* Go `error` is `GoError`; a result of type `error` is `Option GoError`
  (`none` is `nil`), a result `(T, error)` is `Except GoError T`.
* The network is explicit state, `World`: every call of `http.Post` is recorded
  with its outcome, and the outcome of the k-th call is given by an oracle.
* The client is passed and returned explicitly (the receiver `c *Client`).
-/

namespace Logdna

/-! ## Errors, time, JSON values -/

/-- A Go `error` value, identified by its message. -/
structure GoError where
  msg : String
  deriving DecidableEq, Repr

/-- Two's-complement wrap of an integer into the `int64` range. -/
def wrapInt64 (x : Int) : Int :=
  (x + 2 ^ 63) % 2 ^ 64 - 2 ^ 63

/-- A `time.Time`, as the seconds since the Unix epoch and the nanoseconds
within the second (`0 ≤ nsec < 10^9`). -/
structure Time where
  sec : Int
  nsec : Int
  deriving DecidableEq, Repr

/-- The zero value `time.Time{}`: January 1, year 1, 00:00:00 UTC. -/
def Time.zero : Time :=
  { sec := -62135596800, nsec := 0 }

/-- Go `Time.UnixNano`: `unixSec*1e9 + nsec`, computed in `int64`. -/
def Time.UnixNano (t : Time) : Int :=
  wrapInt64 (wrapInt64 (t.sec * 1000000000) + t.nsec)

/-- A JSON document, as a value (the text form and its string escaping are not
modelled). -/
inductive JSON where
  | null
  | num (n : Int)
  | str (s : String)
  | arr (xs : List JSON)
  | obj (kvs : List (String × JSON))
  deriving Repr

/-! ## A model of the parts of `net/url` and `strconv` that `logdna.go` calls -/

/-- The `encoding` modes of `net/url`. -/
inductive encoding where
  | encodePath
  | encodePathSegment
  | encodeHost
  | encodeZone
  | encodeUserPassword
  | encodeQueryComponent
  | encodeFragment
  deriving DecidableEq, Repr

/-- Go `url.Userinfo`. -/
structure Userinfo where
  username : String
  password : String
  passwordSet : Bool
  deriving DecidableEq, Repr

/-- Go `url.User(username)`: a user name and no password. -/
def User (username : String) : Userinfo :=
  { username := username, password := "", passwordSet := false }

/-- Go `url.UserPassword(username, password)`. -/
def UserPassword (username password : String) : Userinfo :=
  { username := username, password := password, passwordSet := true }

/-- Go `url.URL` (without the encoding hints `RawPath` and `RawFragment`). -/
structure URL where
  Scheme : String
  Opaque : String
  User : Option Userinfo
  Host : String
  Path : String
  OmitHost : Bool
  ForceQuery : Bool
  RawQuery : String
  Fragment : String
  deriving DecidableEq, Repr

/-- The zero value `url.URL{}`. -/
def URL.empty : URL :=
  { Scheme := "", Opaque := "", User := none, Host := "", Path := "",
    OmitHost := false, ForceQuery := false, RawQuery := "", Fragment := "" }

/-- Go `shouldEscape` of `net/url`, on a character (a character outside ASCII
stands for its UTF-8 bytes, each of which must be escaped in every mode). -/
def shouldEscape (c : Char) (mode : encoding) : Bool :=
  if ('a' ≤ c ∧ c ≤ 'z') ∨ ('A' ≤ c ∧ c ≤ 'Z') ∨ ('0' ≤ c ∧ c ≤ '9') then false
  else if (mode = .encodeHost ∨ mode = .encodeZone) ∧
      c ∈ ['!', '$', '&', '\'', '(', ')', '*', '+', ',', ';', '=', ':', '[', ']', '<', '>', '"'] then
    false
  else if c ∈ ['-', '_', '.', '~'] then false
  else if c ∈ ['$', '&', '+', ',', '/', ':', ';', '=', '?', '@'] ∧ mode = .encodePath then
    c = '?'
  else if c ∈ ['$', '&', '+', ',', '/', ':', ';', '=', '?', '@'] ∧ mode = .encodePathSegment then
    c = '/' ∨ c = ';' ∨ c = ',' ∨ c = '?'
  else if c ∈ ['$', '&', '+', ',', '/', ':', ';', '=', '?', '@'] ∧ mode = .encodeUserPassword then
    c = '@' ∨ c = '/' ∨ c = '?' ∨ c = ':'
  else if c ∈ ['$', '&', '+', ',', '/', ':', ';', '=', '?', '@'] ∧ mode = .encodeQueryComponent then
    true
  else if c ∈ ['$', '&', '+', ',', '/', ':', ';', '=', '?', '@'] ∧ mode = .encodeFragment then
    false
  else if mode = .encodeFragment ∧ c ∈ ['!', '(', ')', '*'] then false
  else true

/-- The hexadecimal digit (upper case) of a number below 16. -/
def upperhex (n : Nat) : Char :=
  "0123456789ABCDEF".data.getD n '0'

/-- One character of `escape`: a space becomes `+` in a query component, a
character that must be escaped becomes `%XX` for each of its UTF-8 bytes. -/
def escapeChar (mode : encoding) (c : Char) : List Char :=
  if c = ' ' ∧ mode = .encodeQueryComponent then ['+']
  else if shouldEscape c mode then
    (String.utf8EncodeChar c).flatMap
      (fun b => ['%', upperhex (b.toNat / 16), upperhex (b.toNat % 16)])
  else [c]

/-- Go `escape` of `net/url`. -/
def escape (s : String) (mode : encoding) : String :=
  String.mk (s.data.flatMap (escapeChar mode))

/-- Go `url.QueryEscape`. -/
def QueryEscape (s : String) : String :=
  escape s .encodeQueryComponent


/-- Go `Userinfo.String`: `username[:password]`, escaped. -/
def Userinfo.String (u : Userinfo) : String :=
  if u.passwordSet then
    escape u.username .encodeUserPassword ++ ":" ++ escape u.password .encodeUserPassword
  else escape u.username .encodeUserPassword

/-- Go `strings.Cut` at a one-character separator: the text before the first
occurrence, the text after it, and whether it occurs. -/
def cut (sep : Char) : List Char → List Char × List Char × Bool
  | [] => ([], [], false)
  | c :: cs =>
    if c = sep then ([], cs, true)
    else ((c :: (cut sep cs).1), (cut sep cs).2.1, (cut sep cs).2.2)

/-- Go `strings.Cut` at the last occurrence of the separator (`strings.LastIndex`
followed by the two slices). -/
def cutLast (sep : Char) (s : List Char) : List Char × List Char × Bool :=
  (((cut sep s.reverse).2.1).reverse, ((cut sep s.reverse).1).reverse, (cut sep s.reverse).2.2)

/-- Go `stringContainsCTLByte`: a byte below `0x20` or equal to `0x7f`. -/
def stringContainsCTLByte (s : List Char) : Bool :=
  s.any (fun c => c.toNat < 0x20 || c.toNat == 0x7f)

/-- The loop of `getScheme`, at index `i` with `cs` the text from `i` on. -/
def getSchemeLoop (rawURL : List Char) : Nat → List Char → Except GoError (List Char × List Char)
  | _, [] => .ok ([], rawURL)
  | i, c :: cs =>
    if ('a' ≤ c ∧ c ≤ 'z') ∨ ('A' ≤ c ∧ c ≤ 'Z') then getSchemeLoop rawURL (i + 1) cs
    else if ('0' ≤ c ∧ c ≤ '9') ∨ c = '+' ∨ c = '-' ∨ c = '.' then
      if i = 0 then .ok ([], rawURL) else getSchemeLoop rawURL (i + 1) cs
    else if c = ':' then
      if i = 0 then .error ⟨"missing protocol scheme"⟩ else .ok (rawURL.take i, cs)
    else .ok ([], rawURL)

/-- Go `getScheme`: split off a leading `scheme:`; the scheme is empty when the
text does not start with one. -/
def getScheme (rawURL : List Char) : Except GoError (List Char × List Char) :=
  getSchemeLoop rawURL 0 rawURL

/-- Go `validOptionalPort`: empty, or a colon followed by digits. -/
def validOptionalPort (port : List Char) : Bool :=
  match port with
  | [] => true
  | c :: cs => c == ':' && cs.all (fun d => '0' ≤ d ∧ d ≤ '9')

/-- Go `parseHost`, for a host that is not an IP literal in brackets and has no
percent-escapes: the port after the last colon must be valid and every ASCII
character must be allowed in a host name. -/
def parseHost (host : List Char) : Except GoError String :=
  if host.head? = some '[' then .error ⟨"net/url: bracketed host outside the model"⟩
  else if (cutLast ':' host).2.2 ∧ ¬ validOptionalPort (':' :: (cutLast ':' host).2.1) then
    .error ⟨"invalid port after host"⟩
  else if host.any (fun c => c.toNat < 0x80 && shouldEscape c .encodeHost) then
    .error ⟨"invalid character in host name"⟩
  else .ok (String.mk host)

/-- Go `validUserinfo`: letters, digits and the punctuation RFC 3986 allows. -/
def validUserinfo (s : List Char) : Bool :=
  s.all (fun r => ('A' ≤ r ∧ r ≤ 'Z') ∨ ('a' ≤ r ∧ r ≤ 'z') ∨ ('0' ≤ r ∧ r ≤ '9') ∨
    r ∈ ['-', '.', '_', ':', '~', '!', '$', '&', '\'', '(', ')', '*', '+', ',', ';', '=', '%', '@'])

/-- Go `parseAuthority`: `[userinfo@]host`, split at the last `@`. -/
def parseAuthority (authority : List Char) : Except GoError (Option Userinfo × String) :=
  if (cutLast '@' authority).2.2 then
    match parseHost (cutLast '@' authority).2.1 with
    | .error err => .error err
    | .ok host =>
      if ¬ validUserinfo (cutLast '@' authority).1 then .error ⟨"net/url: invalid userinfo"⟩
      else if (cut ':' (cutLast '@' authority).1).2.2 then
        .ok (some (UserPassword (String.mk (cut ':' (cutLast '@' authority).1).1)
          (String.mk (cut ':' (cutLast '@' authority).1).2.1)), host)
      else .ok (some (User (String.mk (cutLast '@' authority).1)), host)
  else
    match parseHost authority with
    | .error err => .error err
    | .ok host => .ok (none, host)

/-- The tail of `parse`, once scheme and query are split off: the authority
after `//` and the path. -/
def parseRest (url : URL) (rest : List Char) : Except GoError URL :=
  if (url.Scheme ≠ "" ∨ rest.take 3 ≠ ['/', '/', '/']) ∧ rest.take 2 = ['/', '/'] then
    match parseAuthority (cut '/' (rest.drop 2)).1 with
    | .error err => .error err
    | .ok (user, host) =>
      .ok { url with
        User := user, Host := host,
        Path := String.mk (if (cut '/' (rest.drop 2)).2.2
          then '/' :: (cut '/' (rest.drop 2)).2.1 else []) }
  else if url.Scheme ≠ "" ∧ rest.head? = some '/' then
    .ok { url with OmitHost := true, Path := String.mk rest }
  else .ok { url with Path := String.mk rest }

/-- Go `parse(rawURL, false)` of `net/url`, for text without percent-escapes. -/
def parse (rawURL : List Char) : Except GoError URL :=
  if stringContainsCTLByte rawURL then
    .error ⟨"net/url: invalid control character in URL"⟩
  else if rawURL = ['*'] then .ok { URL.empty with Path := "*" }
  else
    match getScheme rawURL with
    | .error err => .error err
    | .ok (scheme, rest0) =>
      let url : URL :=
        if rest0.getLast? = some '?' ∧ rest0.count '?' = 1 then
          { URL.empty with Scheme := String.mk (scheme.map Char.toLower), ForceQuery := true }
        else
          { URL.empty with Scheme := String.mk (scheme.map Char.toLower),
                           RawQuery := String.mk (cut '?' rest0).2.1 }
      let rest : List Char :=
        if rest0.getLast? = some '?' ∧ rest0.count '?' = 1 then rest0.dropLast
        else (cut '?' rest0).1
      if rest.head? ≠ some '/' then
        if url.Scheme ≠ "" then .ok { url with Opaque := String.mk rest }
        else if ':' ∈ (cut '/' rest).1 then
          .error ⟨"first path segment in URL cannot contain colon"⟩
        else parseRest url rest
      else parseRest url rest

/-- Go `url.Parse`: cut off the fragment, then `parse`. The model covers text
without percent-escapes (`%`) and without a bracketed IP literal as host;
for other text it reports an error of its own. The wrapping of an error in
`url.Error` is not modelled. -/
def urlParse (rawURL : String) : Except GoError URL :=
  if '%' ∈ rawURL.data then .error ⟨"net/url: percent-escape outside the model"⟩
  else
    match parse (cut '#' rawURL.data).1 with
    | .error err => .error err
    | .ok url => .ok { url with Fragment := String.mk (cut '#' rawURL.data).2.1 }

/-- Go `URL.EscapedPath`, without the `RawPath` hint. -/
def URL.EscapedPath (u : URL) : String :=
  if u.Path = "*" then "*" else escape u.Path .encodePath

/-- The authority part written by `URL.String`. -/
def URL.authorityString (u : URL) : String :=
  if u.Scheme ≠ "" ∨ u.Host ≠ "" ∨ u.User ≠ none then
    if u.OmitHost ∧ u.Host = "" ∧ u.User = none then ""
    else
      (if u.Host ≠ "" ∨ u.Path ≠ "" ∨ u.User ≠ none then "//" else "") ++
      (match u.User with
        | some ui => ui.String ++ "@"
        | none => "") ++
      (if u.Host ≠ "" then escape u.Host .encodeHost else "")
  else ""

/-- The scheme part written by `URL.String`. -/
def URL.schemeString (u : URL) : String :=
  if u.Scheme ≠ "" then u.Scheme ++ ":" else ""

/-- Go `URL.String`: reassemble the URL into `scheme://userinfo@host/path?query#fragment`
(or `scheme:opaque?query#fragment`). -/
def URL.String (u : URL) :=
  u.schemeString ++
  (if u.Opaque ≠ "" then u.Opaque
   else
    u.authorityString ++
    (if u.EscapedPath ≠ "" ∧ u.EscapedPath.data.head? ≠ some '/' ∧ u.Host ≠ "" then "/" else "") ++
    (if u.schemeString ++ u.authorityString = "" ∧ ':' ∈ (cut '/' u.EscapedPath.data).1
      then "./" else "") ++
    u.EscapedPath) ++
  (if u.ForceQuery ∨ u.RawQuery ≠ "" then "?" ++ u.RawQuery else "") ++
  (if u.Fragment ≠ "" then "#" ++ escape u.Fragment .encodeFragment else "")


/-- Go `url.Values`: a map from key to the list of its values, as an association
list with distinct keys. -/
structure Values where
  entries : List (String × List String)
  deriving DecidableEq, Repr

/-- The empty map `url.Values{}`. -/
def Values.empty : Values :=
  { entries := [] }

/-- Go `Values.Set`: the key gets the single value, replacing what it had. -/
def Values.Set (v : Values) (key value : String) : Values :=
  if v.entries.any (fun kv => kv.1 == key) then
    { entries := v.entries.map (fun kv => if kv.1 = key then (key, [value]) else kv) }
  else { entries := v.entries ++ [(key, [value])] }

/-- Byte-wise order of Go strings (on UTF-8 it is the order of code points). -/
def stringLess : List Char → List Char → Bool
  | _, [] => false
  | [], _ :: _ => true
  | a :: as, b :: bs => a.toNat < b.toNat || (a.toNat == b.toNat && stringLess as bs)

/-- Insertion of an entry into a list sorted by key. -/
def insertByKey (kv : String × List String) :
    List (String × List String) → List (String × List String)
  | [] => [kv]
  | x :: xs => if stringLess x.1.data kv.1.data then x :: insertByKey kv xs else kv :: x :: xs

/-- The entries in the order of `slices.Sort(keys)`. -/
def sortByKey (v : Values) : List (String × List String) :=
  v.entries.foldr insertByKey []

/-- Go `Values.Encode`: `key=value` pairs, escaped, joined by `&`, sorted by key. -/
def Values.Encode (v : Values) :=
  "&".intercalate
    ((sortByKey v).flatMap
      (fun kv => kv.2.map (fun x => QueryEscape kv.1 ++ "=" ++ QueryEscape x)))

/-- The decimal digits of a number, most significant first; `fuel` bounds the
number of digits. -/
def decimalDigits : Nat → Nat → List Char → List Char
  | 0, _, acc => acc
  | fuel + 1, n, acc =>
    if n < 10 then Char.ofNat (48 + n) :: acc
    else decimalDigits fuel (n / 10) (Char.ofNat (48 + n % 10) :: acc)

/-- Go `strconv.FormatInt(i, 10)` for an `int64`. -/
def FormatInt (i : Int) :=
  if i < 0 then String.mk ('-' :: decimalDigits 20 i.natAbs [])
  else String.mk (decimalDigits 20 i.natAbs [])

/-! ## Data model of `logdna.go` -/

/-- IngestBaseURL is the base URL for the LogDNA ingest API. -/
def IngestBaseURL : String := "https://logs.logdna.com/logs/ingest"

/-- DefaultFlushLimit is the number of log lines before we flush to LogDNA. -/
def DefaultFlushLimit : Int := 5000

/-- Config is used by NewClient to configure new clients. -/
structure Config where
  APIKey : String
  LogFile : String
  Hostname : String
  FlushLimit : Int
  deriving DecidableEq, Repr

/-- A log line in the LogDNA ingest API JSON payload. -/
structure logLineJSON where
  Timestamp : Int
  Line : String
  File : String
  deriving DecidableEq, Repr

/-- The complete JSON payload sent to the ingest API. A `nil` slice is the
empty list: in this program `Lines` is `nil` exactly when it is empty. -/
structure payloadJSON where
  Lines : List logLineJSON
  deriving DecidableEq, Repr


/-- Client is a client to the LogDNA logging service. -/
structure Client where
  config : Config
  payload : payloadJSON
  apiURL : URL
  deriving DecidableEq, Repr

/-! ## The environment: `encoding/json` and `net/http` -/

/-- The JSON object `encoding/json` writes for a `logLineJSON`: the fields in
declaration order under the names of their `json` tags. -/
def logLineJSON.toJSON (l : logLineJSON) : JSON :=
  .obj [("timestamp", .num l.Timestamp), ("line", .str l.Line), ("file", .str l.File)]

/-- The JSON object `encoding/json` writes for a `payloadJSON`; a `nil` slice
is written `null`. -/
def payloadJSON.toJSON (p : payloadJSON) : JSON :=
  .obj [("lines", if p.Lines = [] then .null else .arr (p.Lines.map logLineJSON.toJSON))]

/-- Go `json.Marshal` on a `payloadJSON`. It cannot fail on this type (integers
and strings only), so the result is always `ok`. -/
def jsonMarshal (p : payloadJSON) : Except GoError JSON :=
  .ok p.toJSON

/-- An HTTP request, as `http.Post` sends it. -/
structure Request where
  method : String
  url : String
  contentType : String
  body : JSON
  deriving Repr

/-- One call of `http.Post`: the request and the error the call returned
(`none` when the exchange completed). -/
structure Exchange where
  request : Request
  err : Option GoError
  deriving Repr

/-- The network as the client sees it: `log` holds the calls of `http.Post`
made so far, oldest first; `transport k` is the outcome of the call number `k`
(counted from zero), which is how a pattern of successes and failures is
given. -/
structure World where
  log : List Exchange
  transport : Nat → Option GoError

/-- A network on which nothing has been sent yet. -/
def World.fresh (transport : Nat → Option GoError) : World :=
  { log := [], transport := transport }

/-- Go `http.Post(url, contentType, body)`: one transmission attempt. The response
is dropped by the caller, so only the error is returned. -/
def httpPost (w : World) (url contentType : String) (body : JSON) : Option GoError × World :=
  (w.transport w.log.length,
   { w with log := w.log ++
      [{ request := { method := "POST", url := url, contentType := contentType, body := body },
         err := w.transport w.log.length }] })

/-! ## The functions of `logdna.go` -/

/-- makeIngestURL creates a new URL to the full LogDNA ingest API endpoint with
API key and required parameters. -/
def makeIngestURL (cfg : Config) : Except GoError URL :=
  match urlParse IngestBaseURL with
  | .error err => .error err
  | .ok u =>
    let values := (Values.empty.Set "hostname" cfg.Hostname).Set "now"
      (FormatInt Time.zero.UnixNano)
    .ok { u with User := some (User cfg.APIKey), RawQuery := values.Encode }

/-- NewClient returns a Client configured to send logs to the LogDNA ingest
API. The result `error err` stands for `log.Fatal(err)`. -/
def NewClient (cfg : Config) : Except GoError Client :=
  let cfg : Config :=
    if cfg.FlushLimit = 0 then { cfg with FlushLimit := DefaultFlushLimit } else cfg
  match makeIngestURL cfg with
  | .error err => .error err
  | .ok iu => .ok { apiURL := iu, config := cfg, payload := { Lines := [] } }

/-- Size returns the number of lines waiting to be sent. -/
def Client.Size (c : Client) : Int :=
  (c.payload.Lines.length : Int)

/-- The body of `Flush`, with the serializer it calls as a parameter. The
result is the returned error, the client and the network after the call. -/
def Client.FlushWith (marshal : payloadJSON → Except GoError JSON) (c : Client) (w : World) :
    Option GoError × Client × World :=
  if c.Size = 0 then (none, c, w)
  else
    match marshal c.payload with
    | .error err => (some err, c, w)
    | .ok jsonPayload =>
      match httpPost w c.apiURL.String "application/json" jsonPayload with
      | (some err, w1) => (some err, c, w1)
      | (none, w1) => (none, { c with payload := { Lines := [] } }, w1)

/-- Flush sends any buffered logs to LogDNA and clears the buffered logs. -/
def Client.Flush (c : Client) (w : World) : Option GoError × Client × World :=
  c.FlushWith jsonMarshal w

/-- Log adds a new log line to Client's payload. Flush is called automatically
(its error dropped) if we reach the client's flush limit. -/
def Client.Log (c : Client) (w : World) (t : Time) (msg : String) : Client × World :=
  let cw : Client × World :=
    if c.Size = c.config.FlushLimit then (c.Flush w).2 else (c, w)
  let logLine : logLineJSON :=
    { Timestamp := Int.tdiv t.UnixNano 1000000, Line := msg, File := cw.1.config.LogFile }
  ({ cw.1 with payload := { Lines := cw.1.payload.Lines ++ [logLine] } }, cw.2)

/-- Close closes the client. It also sends any buffered logs. -/
def Client.Close (c : Client) (w : World) : Option GoError × Client × World :=
  c.Flush w

/-! ## Sequences of calls -/

/-- One call of a caller on the client. -/
inductive Call where
  | Log (t : Time) (msg : String)
  | Flush
  | Close
  deriving DecidableEq, Repr

/-- The effect of one call on the client and the network. -/
def Client.call (c : Client) (w : World) : Call → Client × World
  | .Log t msg => c.Log w t msg
  | .Flush => (c.Flush w).2
  | .Close => (c.Close w).2

/-- The effect of a sequence of calls, in order. -/
def Client.run (c : Client) (w : World) : List Call → Client × World
  | [] => (c, w)
  | call :: rest => (c.call w call).1.run (c.call w call).2 rest

/-! ## Vocabulary of the statements -/

/-- The log line a JSON object of the wire format stands for. -/
def JSON.toLogLine : JSON → Option logLineJSON
  | .obj [(k1, .num n), (k2, .str line), (k3, .str file)] =>
    if k1 = "timestamp" ∧ k2 = "line" ∧ k3 = "file" then
      some { Timestamp := n, Line := line, File := file }
    else none
  | _ => none

/-- The log lines a list of JSON objects stands for, when each is one. -/
def decodeAll : List JSON → Option (List logLineJSON)
  | [] => some []
  | x :: xs =>
    match x.toLogLine, decodeAll xs with
    | some l, some ls => some (l :: ls)
    | _, _ => none

/-- The lines of a JSON payload `{"lines": ...}`. -/
def JSON.toLines : JSON → Option (List logLineJSON)
  | .obj [(k, .null)] => if k = "lines" then some [] else none
  | .obj [(k, .arr xs)] => if k = "lines" then decodeAll xs else none
  | _ => none

/-- The log lines a request carries (none when its body is no payload). -/
def Request.lines (r : Request) : List logLineJSON :=
  r.body.toLines.getD []

/-- The lines of the transmissions that succeeded, in the order of sending. -/
def delivered (log : List Exchange) : List logLineJSON :=
  log.flatMap (fun x => if x.err = none then x.request.lines else [])

/-- The request `Flush` posts for the client in its current state. -/
def Client.request (c : Client) : Request :=
  { method := "POST", url := c.apiURL.String, contentType := "application/json",
    body := c.payload.toJSON }

/-- The entry `Log(t, msg)` builds for a client whose stream identity is
`file`. -/
def entryOf (file : String) (t : Time) (msg : String) : logLineJSON :=
  { Timestamp := Int.tdiv t.UnixNano 1000000, Line := msg, File := file }

/-- The entries a sequence of calls appends, in call order. -/
def appended (file : String) : List Call → List logLineJSON
  | [] => []
  | .Log t msg :: rest => entryOf file t msg :: appended file rest
  | .Flush :: rest => appended file rest
  | .Close :: rest => appended file rest

/-- The calls `Log(t, msg)` for a sequence of pairs `(t, msg)`, in order. -/
def logCalls (logs : List (Time × String)) : List Call :=
  logs.map (fun p => Call.Log p.1 p.2)

/-- Every flush that a `Log` call of the sequence triggers returns `nil`. -/
def autoFlushesSucceed (c : Client) (w : World) : List Call → Prop
  | [] => True
  | call :: rest =>
    (match call with
      | .Log _ _ => c.Size = c.config.FlushLimit → (c.Flush w).1 = none
      | _ => True) ∧
    autoFlushesSucceed (c.call w call).1 (c.call w call).2 rest

/-- The network after one more call of `http.Post` with request `r`. -/
def World.sent (w : World) (r : Request) : World :=
  { w with log := w.log ++ [{ request := r, err := w.transport w.log.length }] }

/-- A transport on which every call succeeds. -/
def working : Nat → Option GoError :=
  fun _ => none

/-- A transport on which every call fails. -/
def failing : Nat → Option GoError :=
  fun _ => some { msg := "dial tcp: connection refused" }

/-- A sample configuration with flush capacity 1. -/
def sampleConfig : Config :=
  { APIKey := "abc", LogFile := "app.log", Hostname := "host1", FlushLimit := 1 }

/-- The endpoint URL of the sample configuration. -/
def sampleURL : URL :=
  { URL.empty with
    Scheme := "https", User := some (User "abc"), Host := "logs.logdna.com",
    Path := "/logs/ingest", RawQuery := "hostname=host1&now=-6795364578871345152" }

/-- The sample client with an empty buffer. -/
def sampleEmpty : Client :=
  { config := sampleConfig, payload := { Lines := [] }, apiURL := sampleURL }

/-- A sample configuration that leaves the flush limit unset. -/
def defaultConfig : Config :=
  { APIKey := "abc", LogFile := "app.log", Hostname := "host1", FlushLimit := 0 }

/-- The client of `defaultConfig`: capacity 5000, empty buffer. -/
def defaultEmpty : Client :=
  { config := { defaultConfig with FlushLimit := 5000 }, payload := { Lines := [] },
    apiURL := sampleURL }

/-- The sample client holding one line. -/
def sampleClient : Client :=
  { config := sampleConfig,
    payload := { Lines := [{ Timestamp := 1500, Line := "hello", File := "app.log" }] },
    apiURL := sampleURL }

/-- The bytes of a Go string: the UTF-8 encoding of its characters. -/
def bytesOf (s : List Char) : List UInt8 :=
  s.flatMap String.utf8EncodeChar

/-- The value of a hexadecimal digit (`ishex` and `unhex` of `net/url`). -/
def unhex (c : Char) : Option Nat :=
  if '0' ≤ c ∧ c ≤ '9' then some (c.toNat - 48)
  else if 'a' ≤ c ∧ c ≤ 'f' then some (c.toNat - 97 + 10)
  else if 'A' ≤ c ∧ c ≤ 'F' then some (c.toNat - 65 + 10)
  else none

/-- The bytes `url.QueryUnescape` reads from an escaped query component: `%XX`
is the byte `XX`, `+` is a space, any other character stands for itself; a
`%` that is not followed by two hexadecimal digits is an error (`none`). -/
def queryUnescape : List Char → Option (List UInt8)
  | [] => some []
  | c :: rest =>
    if c = '%' then
      match rest with
      | a :: b :: rest2 =>
        match unhex a, unhex b, queryUnescape rest2 with
        | some x, some y, some bs => some (UInt8.ofNat (16 * x + y) :: bs)
        | _, _, _ => none
      | _ => none
    else if c = '+' then (queryUnescape rest).map (fun bs => 32 :: bs)
    else (queryUnescape rest).map (fun bs => String.utf8EncodeChar c ++ bs)

/-- The pieces of a text between the occurrences of a separator
(`strings.Split` at a one-character separator). -/
def splitOn (sep : Char) : List Char → List (List Char)
  | [] => [[]]
  | c :: cs =>
    if c = sep then [] :: splitOn sep cs
    else (c :: (splitOn sep cs).headD []) :: (splitOn sep cs).tail

/-- One `key=value` piece of a query, unescaped; a piece with a semicolon is
an error, as in `url.ParseQuery`. -/
def queryParam (piece : List Char) : Option (List UInt8 × List UInt8) :=
  if ';' ∈ piece then none
  else
    match queryUnescape (cut '=' piece).1, queryUnescape (cut '=' piece).2.1 with
    | some k, some v => some (k, v)
    | _, _ => none

/-- The parameters of a list of pieces, empty pieces skipped. -/
def queryParamsOf : List (List Char) → Option (List (List UInt8 × List UInt8))
  | [] => some []
  | piece :: rest =>
    if piece = [] then queryParamsOf rest
    else
      match queryParam piece, queryParamsOf rest with
      | some kv, some kvs => some (kv :: kvs)
      | _, _ => none

/-- The parameters a raw query stands for, as `url.ParseQuery` reads them:
the pairs of key and value bytes, in the order of the query (`none` when a
piece is malformed). -/
def queryParams (rawQuery : String) : Option (List (List UInt8 × List UInt8)) :=
  queryParamsOf (splitOn '&' rawQuery.data)

/-- The nanoseconds since the Unix epoch of a time, as an integer without
bound (no wrap-around). -/
def Time.nanos (t : Time) : Int :=
  t.sec * 1000000000 + t.nsec

/-! ## Basic facts -/

theorem size_eq_zero_iff (c : Client) : c.Size = 0 ↔ c.payload.Lines = [] := by
  simp [Client.Size]

theorem decodeAll_map (ls : List logLineJSON) :
    decodeAll (ls.map logLineJSON.toJSON) = some ls := by
  induction ls with
  | nil => rfl
  | cons l ls ih => simp [decodeAll, ih, logLineJSON.toJSON, JSON.toLogLine]

theorem toLines_toJSON (p : payloadJSON) : p.toJSON.toLines = some p.Lines := by
  unfold payloadJSON.toJSON
  by_cases h : p.Lines = []
  · simp [h, JSON.toLines]
  · simp [h, JSON.toLines, decodeAll_map]

theorem request_lines (c : Client) : c.request.lines = c.payload.Lines := by
  simp [Client.request, Request.lines, toLines_toJSON]

theorem flushWith_empty (marshal : payloadJSON → Except GoError JSON) (c : Client) (w : World)
    (h : c.payload.Lines = []) : c.FlushWith marshal w = (none, c, w) := by
  simp [Client.FlushWith, size_eq_zero_iff, h]

theorem flushWith_marshal_error (marshal : payloadJSON → Except GoError JSON) (c : Client)
    (w : World) (err : GoError) (h : c.payload.Lines ≠ [])
    (hm : marshal c.payload = .error err) : c.FlushWith marshal w = (some err, c, w) := by
  simp [Client.FlushWith, size_eq_zero_iff, h, hm]

theorem flushWith_post_error (marshal : payloadJSON → Except GoError JSON) (c : Client)
    (w : World) (body : JSON) (err : GoError) (h : c.payload.Lines ≠ [])
    (hm : marshal c.payload = .ok body) (ht : w.transport w.log.length = some err) :
    c.FlushWith marshal w =
      (some err, c, (httpPost w c.apiURL.String "application/json" body).2) := by
  simp [Client.FlushWith, size_eq_zero_iff, h, hm, httpPost, ht]

theorem flushWith_post_ok (marshal : payloadJSON → Except GoError JSON) (c : Client)
    (w : World) (body : JSON) (h : c.payload.Lines ≠ [])
    (hm : marshal c.payload = .ok body) (ht : w.transport w.log.length = none) :
    c.FlushWith marshal w =
      (none, { c with payload := { Lines := [] } },
        (httpPost w c.apiURL.String "application/json" body).2) := by
  simp [Client.FlushWith, size_eq_zero_iff, h, hm, httpPost, ht]

theorem flush_empty (c : Client) (w : World) (h : c.payload.Lines = []) :
    c.Flush w = (none, c, w) :=
  flushWith_empty jsonMarshal c w h

theorem flush_ok (c : Client) (w : World) (h : c.payload.Lines ≠ [])
    (ht : w.transport w.log.length = none) :
    c.Flush w = (none, { c with payload := { Lines := [] } }, w.sent c.request) := by
  rw [Client.Flush, flushWith_post_ok jsonMarshal c w c.payload.toJSON h rfl ht]
  simp [httpPost, Client.request, World.sent]

theorem flush_error (c : Client) (w : World) (err : GoError) (h : c.payload.Lines ≠ [])
    (ht : w.transport w.log.length = some err) :
    c.Flush w = (some err, c, w.sent c.request) := by
  rw [Client.Flush, flushWith_post_error jsonMarshal c w c.payload.toJSON err h rfl ht]
  simp [httpPost, Client.request, World.sent]

/-- What `Flush` does to the network when the buffer is not empty: exactly one
exchange is added, carrying the request of the current state. -/
theorem flush_world (c : Client) (w : World) (h : c.payload.Lines ≠ []) :
    (c.Flush w).2.2 = w.sent c.request := by
  cases ht : w.transport w.log.length with
  | none => rw [flush_ok c w h ht]
  | some err => rw [flush_error c w err h ht]

theorem flush_world_transport (c : Client) (w : World) :
    (c.Flush w).2.2.transport = w.transport := by
  by_cases h : c.payload.Lines = []
  · rw [flush_empty c w h]
  · rw [flush_world c w h]; rfl

theorem flush_config (c : Client) (w : World) :
    (c.Flush w).2.1.config = c.config ∧ (c.Flush w).2.1.apiURL = c.apiURL := by
  by_cases h : c.payload.Lines = []
  · rw [flush_empty c w h]; exact ⟨rfl, rfl⟩
  · cases ht : w.transport w.log.length with
    | none => rw [flush_ok c w h ht]; exact ⟨rfl, rfl⟩
    | some err => rw [flush_error c w err h ht]; exact ⟨rfl, rfl⟩

theorem flush_nil_lines (c : Client) (w : World) (h : (c.Flush w).1 = none) :
    (c.Flush w).2.1.payload.Lines = [] := by
  by_cases hne : c.payload.Lines = []
  · rw [flush_empty c w hne]
    exact hne
  · cases ht : w.transport w.log.length with
    | none => rw [flush_ok c w hne ht]
    | some err =>
      rw [flush_error c w err hne ht] at h
      cases h

/-! ## Flush -/

/-- C1: Flush is atomic on failure. For a client with a non-empty buffer, if
the serializer returns an error, or it succeeds and the transmission returns
an error, then Flush returns that same error and the client (hence the buffer,
entry by entry, and Size) is the same after the call as before. It holds for
any serializer in the place of `json.Marshal`, and for `Flush` itself, whose
serializer cannot fail, whenever the transmission fails. -/
theorem flush_failure_atomic (c : Client) (w : World) (err : GoError)
    (hne : c.payload.Lines ≠ []) :
    (∀ marshal : payloadJSON → Except GoError JSON,
      (marshal c.payload = .error err ∨
        ((∃ body, marshal c.payload = .ok body) ∧ w.transport w.log.length = some err)) →
      (c.FlushWith marshal w).1 = some err ∧
      (c.FlushWith marshal w).2.1 = c ∧
      (c.FlushWith marshal w).2.1.payload.Lines = c.payload.Lines ∧
      (c.FlushWith marshal w).2.1.Size = c.Size) ∧
    (w.transport w.log.length = some err →
      (c.Flush w).1 = some err ∧ (c.Flush w).2.1 = c ∧
      (c.Flush w).2.1.payload.Lines = c.payload.Lines ∧ (c.Flush w).2.1.Size = c.Size) := by
  constructor
  · intro marshal hfail
    rcases hfail with hm | ⟨⟨body, hm⟩, ht⟩
    · rw [flushWith_marshal_error marshal c w err hne hm]
      exact ⟨rfl, rfl, rfl, rfl⟩
    · rw [flushWith_post_error marshal c w body err hne hm ht]
      exact ⟨rfl, rfl, rfl, rfl⟩
  · intro ht
    rw [flush_error c w err hne ht]
    exact ⟨rfl, rfl, rfl, rfl⟩

/-- Witness of C1: the sample client holding one line, with a serializer that
fails, and with `json.Marshal` on a network where every call fails. -/
theorem flush_failure_atomic_witness :
    sampleClient.payload.Lines ≠ [] ∧
    (sampleClient.FlushWith (fun _ => .error { msg := "json: unsupported value" })
      (World.fresh working)).1 = some { msg := "json: unsupported value" } ∧
    (sampleClient.FlushWith (fun _ => .error { msg := "json: unsupported value" })
      (World.fresh working)).2.1 = sampleClient ∧
    (World.fresh failing).transport (World.fresh failing).log.length =
      some { msg := "dial tcp: connection refused" } ∧
    (sampleClient.Flush (World.fresh failing)).1 =
      some { msg := "dial tcp: connection refused" } ∧
    (sampleClient.Flush (World.fresh failing)).2.1 = sampleClient ∧
    (sampleClient.Flush (World.fresh failing)).2.1.Size = 1 :=
  ⟨by decide,
   ((flush_failure_atomic sampleClient (World.fresh working)
      { msg := "json: unsupported value" } (by decide)).1
        (fun _ => .error { msg := "json: unsupported value" }) (Or.inl rfl)).1,
   ((flush_failure_atomic sampleClient (World.fresh working)
      { msg := "json: unsupported value" } (by decide)).1
        (fun _ => .error { msg := "json: unsupported value" }) (Or.inl rfl)).2.1,
   rfl,
   ((flush_failure_atomic sampleClient (World.fresh failing)
      { msg := "dial tcp: connection refused" } (by decide)).2 rfl).1,
   ((flush_failure_atomic sampleClient (World.fresh failing)
      { msg := "dial tcp: connection refused" } (by decide)).2 rfl).2.1,
   ((flush_failure_atomic sampleClient (World.fresh failing)
      { msg := "dial tcp: connection refused" } (by decide)).2 rfl).2.2.2⟩

/-- C2: whatever the buffer held before, if Flush returns nil then Size() is 0
afterwards (the buffer is empty). -/
theorem flush_success_empties (c : Client) (w : World) (h : (c.Flush w).1 = none) :
    (c.Flush w).2.1.Size = 0 ∧ (c.Flush w).2.1.payload.Lines = [] := by
  have hl := flush_nil_lines c w h
  exact ⟨(size_eq_zero_iff _).2 hl, hl⟩

/-- Witness of C2: the sample client holding one line, on a network where
every call succeeds. -/
theorem flush_success_empties_witness :
    (sampleClient.Flush (World.fresh working)).1 = none ∧
    sampleClient.Size = 1 ∧
    (sampleClient.Flush (World.fresh working)).2.1.Size = 0 :=
  ⟨rfl, rfl, (flush_success_empties sampleClient (World.fresh working) rfl).1⟩

/-- The exchanges one `Flush` adds to the network: none, or one that carries
at least one line. -/
theorem flush_adds (c : Client) (w : World) :
    ∃ new : List Exchange, (c.Flush w).2.2.log = w.log ++ new ∧
      ∀ x ∈ new, x.request.lines ≠ [] := by
  by_cases h : c.payload.Lines = []
  · exact ⟨[], by rw [flush_empty c w h]; simp, by simp⟩
  · refine ⟨[{ request := c.request, err := w.transport w.log.length }], ?_, ?_⟩
    · rw [flush_world c w h]; rfl
    · intro x hx
      simp only [List.mem_singleton] at hx
      subst hx
      simpa [request_lines] using h

theorem log_world (c : Client) (w : World) (t : Time) (msg : String) :
    (c.Log w t msg).2 = if c.Size = c.config.FlushLimit then (c.Flush w).2.2 else w := by
  unfold Client.Log
  split <;> rfl

theorem call_adds (c : Client) (w : World) (call : Call) :
    ∃ new : List Exchange, (c.call w call).2.log = w.log ++ new ∧
      ∀ x ∈ new, x.request.lines ≠ [] := by
  cases call with
  | Log t msg =>
    simp only [Client.call, log_world]
    split
    · exact flush_adds c w
    · exact ⟨[], by simp, by simp⟩
  | Flush => exact flush_adds c w
  | Close => exact flush_adds c w

theorem run_adds (calls : List Call) : ∀ (c : Client) (w : World),
    ∃ new : List Exchange, (c.run w calls).2.log = w.log ++ new ∧
      ∀ x ∈ new, x.request.lines ≠ [] := by
  induction calls with
  | nil => intro c w; exact ⟨[], by simp [Client.run], by simp⟩
  | cons call rest ih =>
    intro c w
    obtain ⟨new1, h1, hn1⟩ := call_adds c w call
    obtain ⟨new2, h2, hn2⟩ := ih (c.call w call).1 (c.call w call).2
    refine ⟨new1 ++ new2, ?_, ?_⟩
    · rw [Client.run, h2, h1, List.append_assoc]
    · intro x hx
      rcases List.mem_append.1 hx with hx | hx
      · exact hn1 x hx
      · exact hn2 x hx

/-- C3: Flush on an empty buffer returns nil and leaves the client and the
network exactly as they were (no call of `http.Post` is recorded);
consequently, whatever sequence of Log, Flush and Close calls runs from any
state, every request it adds to the network carries at least one line. -/
theorem flush_empty_noop (c : Client) (w : World) :
    (c.payload.Lines = [] →
      c.Flush w = (none, c, w) ∧ (c.Flush w).1 = none ∧ (c.Flush w).2.2.log = w.log) ∧
    (∀ calls : List Call, ∃ new : List Exchange,
      (c.run w calls).2.log = w.log ++ new ∧ ∀ x ∈ new, x.request.lines ≠ []) := by
  refine ⟨fun h => ?_, fun calls => run_adds calls c w⟩
  rw [flush_empty c w h]
  exact ⟨rfl, rfl, rfl⟩

/-- Witness of C3: the sample client with an empty buffer. -/
theorem flush_empty_noop_witness :
    sampleEmpty.payload.Lines = [] ∧
    sampleEmpty.Flush (World.fresh failing) = (none, sampleEmpty, World.fresh failing) :=
  ⟨rfl, ((flush_empty_noop sampleEmpty (World.fresh failing)).1 rfl).1⟩

/-- C4: for a client with a non-empty buffer, one Flush call adds exactly one
exchange to the network: a POST to the rendering of the client's endpoint URL,
with content type application/json, whose body is the serialized payload and
carries exactly the buffered entries, each once, in buffer order; its outcome
is the one the transport gives for this call. -/
theorem flush_sends_whole_buffer (c : Client) (w : World) (hne : c.payload.Lines ≠ []) :
    ∃ x : Exchange, (c.Flush w).2.2.log = w.log ++ [x] ∧
      x.request.method = "POST" ∧
      x.request.url = c.apiURL.String ∧
      x.request.contentType = "application/json" ∧
      x.request.body = c.payload.toJSON ∧
      x.request.lines = c.payload.Lines ∧
      x.err = w.transport w.log.length := by
  refine ⟨{ request := c.request, err := w.transport w.log.length }, ?_, rfl, rfl, rfl, rfl,
    request_lines c, rfl⟩
  rw [flush_world c w hne]
  rfl

/-- Witness of C4: the sample client holding one line sends that line. -/
theorem flush_sends_whole_buffer_witness :
    sampleClient.payload.Lines ≠ [] ∧
    ∃ x : Exchange, (sampleClient.Flush (World.fresh working)).2.2.log = [] ++ [x] ∧
      x.request.method = "POST" ∧
      x.request.url = sampleClient.apiURL.String ∧
      x.request.contentType = "application/json" ∧
      x.request.body = sampleClient.payload.toJSON ∧
      x.request.lines = [{ Timestamp := 1500, Line := "hello", File := "app.log" }] ∧
      x.err = none :=
  ⟨by decide, flush_sends_whole_buffer sampleClient (World.fresh working) (by decide)⟩

theorem sampleURL_string :
    sampleURL.String =
      "https://abc@logs.logdna.com/logs/ingest?hostname=host1&now=-6795364578871345152" := by
  decide

/-! ## Log -/

theorem log_no_flush (c : Client) (w : World) (t : Time) (msg : String)
    (h : c.Size ≠ c.config.FlushLimit) :
    c.Log w t msg =
      ({ c with payload := { Lines := c.payload.Lines ++ [entryOf c.config.LogFile t msg] } },
        w) := by
  simp [Client.Log, h, entryOf]

theorem log_flush (c : Client) (w : World) (t : Time) (msg : String)
    (h : c.Size = c.config.FlushLimit) :
    c.Log w t msg =
      ({ (c.Flush w).2.1 with
          payload := { Lines := (c.Flush w).2.1.payload.Lines ++
            [entryOf c.config.LogFile t msg] } },
        (c.Flush w).2.2) := by
  simp [Client.Log, h, entryOf, (flush_config c w).1]

theorem log_config (c : Client) (w : World) (t : Time) (msg : String) :
    (c.Log w t msg).1.config = c.config ∧ (c.Log w t msg).1.apiURL = c.apiURL := by
  by_cases h : c.Size = c.config.FlushLimit
  · rw [log_flush c w t msg h]
    exact flush_config c w
  · rw [log_no_flush c w t msg h]
    exact ⟨rfl, rfl⟩

theorem call_config (c : Client) (w : World) (call : Call) :
    (c.call w call).1.config = c.config ∧ (c.call w call).1.apiURL = c.apiURL := by
  cases call with
  | Log t msg => exact log_config c w t msg
  | Flush => exact flush_config c w
  | Close => exact flush_config c w

theorem run_config (calls : List Call) : ∀ (c : Client) (w : World),
    (c.run w calls).1.config = c.config ∧ (c.run w calls).1.apiURL = c.apiURL := by
  induction calls with
  | nil => intro c w; exact ⟨rfl, rfl⟩
  | cons call rest ih =>
    intro c w
    rw [Client.run]
    exact ⟨(ih _ _).1.trans (call_config c w call).1, (ih _ _).2.trans (call_config c w call).2⟩

theorem run_append (xs ys : List Call) : ∀ (c : Client) (w : World),
    c.run w (xs ++ ys) = (c.run w xs).1.run (c.run w xs).2 ys := by
  induction xs with
  | nil => intro c w; rfl
  | cons x xs ih => intro c w; simp only [List.cons_append, Client.run]; exact ih _ _

theorem appended_logCalls (file : String) (logs : List (Time × String)) :
    appended file (logCalls logs) = logs.map (fun p => entryOf file p.1 p.2) := by
  induction logs with
  | nil => rfl
  | cons p logs ih => simp [logCalls, appended] at ih ⊢; exact ih

theorem appended_length (file : String) (logs : List (Time × String)) :
    (appended file (logCalls logs)).length = logs.length := by
  simp [appended_logCalls]

/-- Log calls that stay within the capacity only append: no flush is
triggered, nothing is sent. -/
theorem run_logs_within (logs : List (Time × String)) : ∀ (c : Client) (w : World),
    c.Size + (logs.length : Int) ≤ c.config.FlushLimit →
    c.run w (logCalls logs) =
      ({ c with payload :=
          { Lines := c.payload.Lines ++ appended c.config.LogFile (logCalls logs) } }, w) := by
  induction logs with
  | nil => intro c w _; simp [logCalls, Client.run, appended]
  | cons p logs ih =>
    intro c w h
    have hlt : c.Size ≠ c.config.FlushLimit := by
      simp only [List.length_cons, Nat.cast_add, Nat.cast_one] at h
      omega
    simp only [logCalls, List.map_cons, Client.run, Client.call]
    rw [log_no_flush c w p.1 p.2 hlt]
    have h2 := ih { c with payload :=
      { Lines := c.payload.Lines ++ [entryOf c.config.LogFile p.1 p.2] } } w (by
        simp only [Client.Size, List.length_append, List.length_cons, List.length_nil,
          Nat.cast_add, Nat.cast_one] at h ⊢
        omega)
    simp only [logCalls] at h2
    rw [h2]
    simp [appended]

/-! ## NewClient -/

theorem urlParse_base :
    urlParse IngestBaseURL =
      .ok { URL.empty with Scheme := "https", Host := "logs.logdna.com",
                           Path := "/logs/ingest" } := by
  rfl

/-- The endpoint builder always succeeds: the base URL is a constant that
parses. -/
theorem makeIngestURL_ok (cfg : Config) :
    makeIngestURL cfg =
      .ok { URL.empty with
        Scheme := "https", Host := "logs.logdna.com", Path := "/logs/ingest",
        User := some (User cfg.APIKey),
        RawQuery := ((Values.empty.Set "hostname" cfg.Hostname).Set "now"
          (FormatInt Time.zero.UnixNano)).Encode } := by
  simp only [makeIngestURL, urlParse_base]

theorem makeIngestURL_congr (cfg cfg2 : Config) (hk : cfg.APIKey = cfg2.APIKey)
    (hh : cfg.Hostname = cfg2.Hostname) : makeIngestURL cfg = makeIngestURL cfg2 := by
  rw [makeIngestURL_ok, makeIngestURL_ok, hk, hh]

/-- NewClient always returns a client, and which one. -/
theorem newClient_ok (cfg : Config) :
    ∃ u : URL, makeIngestURL cfg = .ok u ∧
      NewClient cfg =
        .ok { apiURL := u,
              config := { cfg with FlushLimit :=
                if cfg.FlushLimit = 0 then DefaultFlushLimit else cfg.FlushLimit },
              payload := { Lines := [] } } := by
  refine ⟨_, makeIngestURL_ok cfg, ?_⟩
  unfold NewClient
  by_cases h : cfg.FlushLimit = 0
  · simp only [h, if_true, makeIngestURL_ok]
  · simp only [h, if_false, makeIngestURL_ok]

/-- C10: NewClient(cfg) returns a client; its buffer is empty (Size() == 0),
its flush capacity is 5000 when cfg.FlushLimit is 0 and cfg.FlushLimit
otherwise, its credential, hostname and stream identity are those of cfg, and
its endpoint URL is the URL makeIngestURL returns for cfg. -/
theorem newClient_spec (cfg : Config) :
    ∃ (c : Client) (u : URL), NewClient cfg = .ok c ∧ makeIngestURL cfg = .ok u ∧
      c.payload.Lines = [] ∧ c.Size = 0 ∧
      c.config.FlushLimit = (if cfg.FlushLimit = 0 then 5000 else cfg.FlushLimit) ∧
      c.config.APIKey = cfg.APIKey ∧
      c.config.Hostname = cfg.Hostname ∧
      c.config.LogFile = cfg.LogFile ∧
      c.apiURL = u := by
  obtain ⟨u, hu, hc⟩ := newClient_ok cfg
  exact ⟨_, u, hc, hu, rfl, rfl, rfl, rfl, rfl, rfl, rfl⟩

set_option maxRecDepth 100000 in
theorem newClient_sample : NewClient sampleConfig = .ok sampleEmpty := by
  rfl

set_option maxRecDepth 100000 in
theorem newClient_default : NewClient defaultConfig = .ok defaultEmpty := by
  rfl

/-- C7: for the client NewClient returns and any N Log calls with N strictly
below the client's flush capacity, Size() afterwards is N (the buffer holds
the N entries in call order) and the network is untouched: no call of
`http.Post` has been made. -/
theorem logs_below_capacity (cfg : Config) (w : World) (logs : List (Time × String)) :
    ∃ c : Client, NewClient cfg = .ok c ∧
      ((logs.length : Int) < c.config.FlushLimit →
        (c.run w (logCalls logs)).1.Size = (logs.length : Int) ∧
        (c.run w (logCalls logs)).1.payload.Lines = appended cfg.LogFile (logCalls logs) ∧
        (c.run w (logCalls logs)).2.log = w.log ∧
        (c.run w (logCalls logs)).2 = w) := by
  obtain ⟨u, -, hc⟩ := newClient_ok cfg
  refine ⟨_, hc, fun h => ?_⟩
  rw [run_logs_within logs _ w (Int.le_of_lt (by
    show (0 : Int) + (logs.length : Int) < _
    rw [Int.zero_add]; exact h))]
  simp [Client.Size, appended_length]

/-- Witness of C7: three Log calls on the client of capacity 5000 that
NewClient returns for a configuration without flush limit. -/
theorem logs_below_capacity_witness :
    ∃ c : Client, NewClient defaultConfig = .ok c ∧
      (3 : Int) < c.config.FlushLimit ∧
      (c.run (World.fresh failing)
        (logCalls [(Time.zero, "a"), (Time.zero, "b"), (Time.zero, "c")])).1.Size = 3 ∧
      (c.run (World.fresh failing)
        (logCalls [(Time.zero, "a"), (Time.zero, "b"), (Time.zero, "c")])).2.log = [] := by
  obtain ⟨c, hc, h⟩ := logs_below_capacity defaultConfig (World.fresh failing)
    [(Time.zero, "a"), (Time.zero, "b"), (Time.zero, "c")]
  have hc2 := hc
  rw [newClient_default] at hc2
  cases hc2
  exact ⟨_, hc, by decide, (h (by decide)).1, (h (by decide)).2.2.1⟩

theorem tdiv_million (n : Int) :
    Int.tdiv n 1000000 = if 0 ≤ n then n / 1000000 else -((-n) / 1000000) := by
  split
  · next h => exact Int.tdiv_eq_ediv h (by decide)
  · next h =>
    have h2 : (0 : Int) ≤ -n := by omega
    have h3 := Int.tdiv_eq_ediv h2 (show (0 : Int) ≤ 1000000 by decide)
    rw [Int.neg_tdiv] at h3
    omega

theorem wrapInt64_of_range (x : Int) (hlo : -2 ^ 63 ≤ x) (hhi : x < 2 ^ 63) :
    wrapInt64 x = x := by
  unfold wrapInt64
  norm_num at hlo hhi ⊢
  omega

theorem wrapInt64_add (a b : Int) : wrapInt64 (wrapInt64 a + b) = wrapInt64 (a + b) := by
  unfold wrapInt64
  norm_num
  omega

/-- Within the `int64` range `UnixNano` is the nanoseconds since the epoch. -/
theorem unixNano_of_range (t : Time) (hlo : -2 ^ 63 ≤ t.nanos) (hhi : t.nanos < 2 ^ 63) :
    t.UnixNano = t.nanos := by
  unfold Time.UnixNano
  rw [wrapInt64_add]
  exact wrapInt64_of_range _ hlo hhi

/-- The entry `Log(t, msg)` appends is the last one of the buffer; its
timestamp is `t.UnixNano() / 1000000`. -/
theorem log_last (c : Client) (w : World) (t : Time) (msg : String) :
    (c.Log w t msg).1.payload.Lines.getLast? =
      some { Timestamp := Int.tdiv t.UnixNano 1000000, Line := msg,
             File := c.config.LogFile } := by
  by_cases h : c.Size = c.config.FlushLimit
  · rw [log_flush c w t msg h]
    simp [entryOf]
  · rw [log_no_flush c w t msg h]
    simp [entryOf]

theorem log_sample (w : World) (t : Time) (msg : String) :
    (sampleEmpty.Log w t msg).1.payload.Lines =
      [{ Timestamp := Int.tdiv t.UnixNano 1000000, Line := msg, File := "app.log" }] := by
  rw [log_no_flush sampleEmpty w _ _ (by decide)]
  rfl

/-- Counterexample to C8 as stated: the zero time `time.Time{}`, which the
command line tool passes to every Log call. Its nanoseconds since the epoch
are n = -62135596800000000000, outside `int64`, and n / 1,000,000 is
-62135596800000; the entry Log appends has timestamp -6795364578871, computed
from the wrapped value `UnixNano()` returns. -/
theorem log_entry_counterexample :
    Time.zero.nanos = -62135596800000000000 ∧
    Int.tdiv Time.zero.nanos 1000000 = -62135596800000 ∧
    Time.zero.UnixNano = -6795364578871345152 ∧
    (sampleEmpty.Log (World.fresh working) Time.zero "hello").1.payload.Lines =
      [{ Timestamp := -6795364578871, Line := "hello", File := "app.log" }] ∧
    (sampleEmpty.Log (World.fresh working) Time.zero "hello").1.payload.Lines.getLast? ≠
      some { Timestamp := Int.tdiv Time.zero.nanos 1000000, Line := "hello",
             File := "app.log" } := by
  have h := log_sample (World.fresh working) Time.zero "hello"
  refine ⟨by decide, by decide, by decide, ?_, ?_⟩
  · rw [h]
    decide
  · rw [h]
    decide

/-- C8, amended: for every timestamp whose nanoseconds-since-epoch value n fits
in `int64` (-2^63 ≤ n < 2^63) and every message, the entry `Log(t, msg)`
appends is the last entry of the buffer afterwards; its timestamp is n divided
by 1,000,000 and truncated toward zero (the floor of the quotient for n ≥ 0,
minus the floor of the quotient of -n for n < 0), its line is msg unchanged
and its file is the client's configured stream identity. For any timestamp the
same holds with the value `t.UnixNano()` returns in the place of n. Examples:
n = 1,500,250,000 with "hello" gives timestamp 1500; n = 1,500,750,000 gives
1500, not the nearest 1501; n = -1,500,250,000 gives -1500, not the floor
-1501. -/
theorem log_entry (c : Client) (w : World) (t : Time) (msg : String)
    (hlo : -2 ^ 63 ≤ t.nanos) (hhi : t.nanos < 2 ^ 63) :
    (c.Log w t msg).1.payload.Lines.getLast? =
      some { Timestamp := Int.tdiv t.nanos 1000000, Line := msg, File := c.config.LogFile } ∧
    Int.tdiv t.nanos 1000000 =
      (if 0 ≤ t.nanos then t.nanos / 1000000 else -((-t.nanos) / 1000000)) ∧
    t.UnixNano = t.nanos ∧
    (∀ (t2 : Time),
      (c.Log w t2 msg).1.payload.Lines.getLast? =
        some { Timestamp := Int.tdiv t2.UnixNano 1000000, Line := msg,
               File := c.config.LogFile } ∧
      Int.tdiv t2.UnixNano 1000000 =
        (if 0 ≤ t2.UnixNano then t2.UnixNano / 1000000 else -((-t2.UnixNano) / 1000000))) ∧
    (Time.mk 1 500250000).nanos = 1500250000 ∧
    (sampleEmpty.Log w (Time.mk 1 500250000) "hello").1.payload.Lines =
      [{ Timestamp := 1500, Line := "hello", File := "app.log" }] ∧
    (Time.mk 1 500750000).nanos = 1500750000 ∧
    (sampleEmpty.Log w (Time.mk 1 500750000) "hello").1.payload.Lines =
      [{ Timestamp := 1500, Line := "hello", File := "app.log" }] ∧
    (Time.mk (-2) 499750000).nanos = -1500250000 ∧
    (sampleEmpty.Log w (Time.mk (-2) 499750000) "hello").1.payload.Lines =
      [{ Timestamp := -1500, Line := "hello", File := "app.log" }] := by
  have hu := unixNano_of_range t hlo hhi
  refine ⟨?_, tdiv_million _, hu, fun t2 => ⟨log_last c w t2 msg, tdiv_million _⟩,
    by decide, ?_, by decide, ?_, by decide, ?_⟩
  · rw [← hu]
    exact log_last c w t msg
  · rw [log_sample]
    decide
  · rw [log_sample]
    decide
  · rw [log_sample]
    decide

/-- Witness of C8 (amended): the timestamp 1,500,250,000 ns after the epoch
with the message "hello". -/
theorem log_entry_witness :
    -2 ^ 63 ≤ (Time.mk 1 500250000).nanos ∧ (Time.mk 1 500250000).nanos < 2 ^ 63 ∧
    (sampleEmpty.Log (World.fresh working) (Time.mk 1 500250000)
      "hello").1.payload.Lines.getLast? =
      some { Timestamp := Int.tdiv (Time.mk 1 500250000).nanos 1000000, Line := "hello",
             File := sampleEmpty.config.LogFile } ∧
    Int.tdiv (Time.mk 1 500250000).nanos 1000000 = 1500 :=
  ⟨by decide, by decide,
   (log_entry sampleEmpty (World.fresh working) (Time.mk 1 500250000) "hello"
      (by decide) (by decide)).1,
   by decide⟩

/-! ## Log at the capacity -/

theorem log_at_capacity_ok (c : Client) (w : World) (t : Time) (msg : String)
    (h : c.Size = c.config.FlushLimit) (hne : c.payload.Lines ≠ [])
    (ht : w.transport w.log.length = none) :
    c.Log w t msg =
      ({ c with payload := { Lines := [entryOf c.config.LogFile t msg] } },
        w.sent c.request) := by
  rw [log_flush c w t msg h, flush_ok c w hne ht]
  simp

theorem log_at_capacity_error (c : Client) (w : World) (t : Time) (msg : String)
    (err : GoError) (h : c.Size = c.config.FlushLimit) (hne : c.payload.Lines ≠ [])
    (ht : w.transport w.log.length = some err) :
    c.Log w t msg =
      ({ c with payload := { Lines := c.payload.Lines ++ [entryOf c.config.LogFile t msg] } },
        w.sent c.request) := by
  rw [log_flush c w t msg h, flush_error c w err hne ht]

theorem logCalls_append (xs ys : List (Time × String)) :
    logCalls (xs ++ ys) = logCalls xs ++ logCalls ys := by
  simp [logCalls]

/-- Counterexample to C5 as stated: capacity 1, a network on which the
transmission fails. The second Log call triggers the one flush, the flush
fails, the first entry stays, and Size() is 2 after the append, not 1. -/
theorem capacity_plus_one_counterexample :
    ∃ c : Client, NewClient sampleConfig = .ok c ∧ c.config.FlushLimit = 1 ∧
      (c.run (World.fresh failing) (logCalls [(Time.zero, "a")])).1.Size = 1 ∧
      (c.run (World.fresh failing)
        (logCalls ([(Time.zero, "a")] ++ [(Time.zero, "b")]))).2.log.length = 1 ∧
      (c.run (World.fresh failing)
        (logCalls ([(Time.zero, "a")] ++ [(Time.zero, "b")]))).1.Size = 2 ∧
      (c.run (World.fresh failing)
        (logCalls ([(Time.zero, "a")] ++ [(Time.zero, "b")]))).1.Size ≠ 1 :=
  ⟨sampleEmpty, newClient_sample, rfl, rfl, rfl, rfl, by decide⟩

/-- Filling an empty buffer up to the capacity and logging once more, for any
client with an empty buffer and a capacity other than zero. -/
theorem fill_then_one_more (c : Client) (w : World) (logs : List (Time × String))
    (t : Time) (msg : String) (hempty : c.payload.Lines = [])
    (hcap : c.config.FlushLimit ≠ 0) (h : (logs.length : Int) = c.config.FlushLimit) :
    (c.run w (logCalls logs)).2 = w ∧
    (c.run w (logCalls logs)).1.payload.Lines = appended c.config.LogFile (logCalls logs) ∧
    ∃ x : Exchange,
      (c.run w (logCalls (logs ++ [(t, msg)]))).2.log = w.log ++ [x] ∧
      x.request.lines = appended c.config.LogFile (logCalls logs) ∧
      x.err = w.transport w.log.length ∧
      (x.err = none →
        (c.run w (logCalls (logs ++ [(t, msg)]))).1.payload.Lines =
          [entryOf c.config.LogFile t msg] ∧
        (c.run w (logCalls (logs ++ [(t, msg)]))).1.Size = 1) ∧
      (x.err ≠ none →
        (c.run w (logCalls (logs ++ [(t, msg)]))).1.payload.Lines =
          appended c.config.LogFile (logCalls logs) ++ [entryOf c.config.LogFile t msg] ∧
        (c.run w (logCalls (logs ++ [(t, msg)]))).1.Size = c.config.FlushLimit + 1) := by
  have hlen : logs.length ≠ 0 := by
    intro h0
    rw [h0] at h
    exact hcap h.symm
  have hsz0 : c.Size = 0 := (size_eq_zero_iff c).2 hempty
  have hrun := run_logs_within logs c w (by rw [hsz0, h]; omega)
  rw [hempty, List.nil_append] at hrun
  have hal := appended_length c.config.LogFile logs
  have hne : appended c.config.LogFile (logCalls logs) ≠ [] := by
    intro h0
    rw [h0] at hal
    exact hlen hal.symm
  refine ⟨by rw [hrun], by rw [hrun], ?_⟩
  rw [logCalls_append, run_append, hrun]
  simp only [logCalls, List.map_cons, List.map_nil, Client.run, Client.call]
  simp only [logCalls] at hne hal
  have hsize : (Client.mk c.config
      { Lines := appended c.config.LogFile (List.map (fun p => Call.Log p.1 p.2) logs) }
      c.apiURL).Size = c.config.FlushLimit := by
    simp only [Client.Size, hal]
    exact h
  cases ht : w.transport w.log.length with
  | none =>
    rw [log_at_capacity_ok _ w t msg hsize hne ht]
    refine ⟨{ request := _, err := w.transport w.log.length }, rfl, request_lines _, ht, ?_, ?_⟩
    · intro _; exact ⟨rfl, rfl⟩
    · intro hx; exact absurd ht hx
  | some err =>
    rw [log_at_capacity_error _ w t msg err hsize hne ht]
    refine ⟨{ request := _, err := w.transport w.log.length }, rfl, request_lines _, ht, ?_, ?_⟩
    · intro hx; rw [ht] at hx; cases hx
    · intro _
      refine ⟨rfl, ?_⟩
      show ((appended c.config.LogFile (List.map (fun p => Call.Log p.1 p.2) logs) ++
        [entryOf c.config.LogFile t msg]).length : Int) = c.config.FlushLimit + 1
      rw [List.length_append, hal, ← h]
      simp

/-- C5, amended: for the client NewClient returns, with flush capacity c,
appending exactly c entries with Log sends nothing and leaves the c entries in
the buffer; one more Log call then triggers exactly one flush, whose single
request carries exactly those c entries and not the new one (it happens before
the (c+1)-th entry is buffered). If that transmission succeeds, the buffer
afterwards is the new entry alone and Size() == 1; if it fails, the c entries
are kept, the new entry follows them and Size() == c + 1. -/
theorem capacity_plus_one (cfg : Config) (w : World) (logs : List (Time × String))
    (t : Time) (msg : String) :
    ∃ c : Client, NewClient cfg = .ok c ∧
      ((logs.length : Int) = c.config.FlushLimit →
        (c.run w (logCalls logs)).2 = w ∧
        (c.run w (logCalls logs)).1.payload.Lines = appended cfg.LogFile (logCalls logs) ∧
        ∃ x : Exchange,
          (c.run w (logCalls (logs ++ [(t, msg)]))).2.log = w.log ++ [x] ∧
          x.request.lines = appended cfg.LogFile (logCalls logs) ∧
          x.err = w.transport w.log.length ∧
          (x.err = none →
            (c.run w (logCalls (logs ++ [(t, msg)]))).1.payload.Lines =
              [entryOf cfg.LogFile t msg] ∧
            (c.run w (logCalls (logs ++ [(t, msg)]))).1.Size = 1) ∧
          (x.err ≠ none →
            (c.run w (logCalls (logs ++ [(t, msg)]))).1.payload.Lines =
              appended cfg.LogFile (logCalls logs) ++ [entryOf cfg.LogFile t msg] ∧
            (c.run w (logCalls (logs ++ [(t, msg)]))).1.Size = c.config.FlushLimit + 1)) := by
  obtain ⟨u, -, hc⟩ := newClient_ok cfg
  refine ⟨_, hc, fun h => ?_⟩
  have hcap : (if cfg.FlushLimit = 0 then DefaultFlushLimit else cfg.FlushLimit) ≠ 0 := by
    split
    · decide
    · assumption
  exact fill_then_one_more _ w logs t msg rfl hcap h

/-- Witness of C5 (amended): capacity 1, one entry, then one more, on a
network where every call succeeds. -/
theorem capacity_plus_one_witness :
    ∃ c : Client, NewClient sampleConfig = .ok c ∧
      (([(Time.zero, "a")] : List (Time × String)).length : Int) = c.config.FlushLimit ∧
      (c.run (World.fresh working) (logCalls [(Time.zero, "a")])).2 = World.fresh working ∧
      ∃ x : Exchange,
        (c.run (World.fresh working)
          (logCalls ([(Time.zero, "a")] ++ [(Time.zero, "b")]))).2.log = [] ++ [x] ∧
        x.request.lines = appended "app.log" (logCalls [(Time.zero, "a")]) ∧
        x.err = none := by
  obtain ⟨c, hc, h⟩ := capacity_plus_one sampleConfig (World.fresh working)
    [(Time.zero, "a")] Time.zero "b"
  have hc2 := hc
  rw [newClient_sample] at hc2
  cases hc2
  obtain ⟨h1, -, x, hx1, hx2, hx3, -, -⟩ := h (by decide)
  exact ⟨_, hc, by decide, h1, x, hx1, hx2, hx3⟩

/-! ## Invariants of runs -/

theorem flush_size_le (c : Client) (w : World) : (c.Flush w).2.1.Size ≤ c.Size := by
  by_cases h : c.payload.Lines = []
  · rw [flush_empty c w h]
  · cases ht : w.transport w.log.length with
    | none =>
      rw [flush_ok c w h ht]
      simp [Client.Size]
    | some err =>
      rw [flush_error c w err h ht]

/-- One call keeps the buffer within a capacity of at least one, provided the
flush it triggers inside Log (if any) succeeds. -/
theorem call_within_capacity (c : Client) (w : World) (call : Call)
    (hcap : 1 ≤ c.config.FlushLimit) (hsize : c.Size ≤ c.config.FlushLimit)
    (hok : match call with
      | .Log _ _ => c.Size = c.config.FlushLimit → (c.Flush w).1 = none
      | _ => True) :
    (c.call w call).1.Size ≤ c.config.FlushLimit := by
  cases call with
  | Log t msg =>
    simp only [Client.call]
    by_cases h : c.Size = c.config.FlushLimit
    · rw [log_flush c w t msg h]
      have h0 := flush_nil_lines c w (hok h)
      simp only [Client.Size, h0, List.nil_append, List.length_cons, List.length_nil]
      simpa using hcap
    · rw [log_no_flush c w t msg h]
      simp only [Client.Size, List.length_append, List.length_cons, List.length_nil,
        Nat.cast_add, Nat.cast_one] at hsize h ⊢
      omega
  | Flush => exact Int.le_trans (flush_size_le c w) hsize
  | Close => exact Int.le_trans (flush_size_le c w) hsize

theorem run_within_capacity (calls : List Call) : ∀ (c : Client) (w : World),
    1 ≤ c.config.FlushLimit → c.Size ≤ c.config.FlushLimit →
    autoFlushesSucceed c w calls → (c.run w calls).1.Size ≤ c.config.FlushLimit := by
  induction calls with
  | nil => intro c w _ h _; exact h
  | cons call rest ih =>
    intro c w hcap hsize hok
    rw [Client.run]
    have hcfg := (call_config c w call).1
    have h1 := call_within_capacity c w call hcap hsize hok.1
    have h2 := ih (c.call w call).1 (c.call w call).2 (by rw [hcfg]; exact hcap)
      (by rw [hcfg]; exact h1) hok.2
    rw [hcfg] at h2
    exact h2

/-- Counterexample to C6 as stated: capacity 1, a network on which the
transmission fails. After two Log calls the flush triggered by the second has
failed, both entries are buffered and Size() is 2, above the capacity. -/
theorem capacity_invariant_counterexample :
    ∃ c : Client, NewClient sampleConfig = .ok c ∧ c.config.FlushLimit = 1 ∧
      (c.run (World.fresh failing) [Call.Log Time.zero "a", Call.Log Time.zero "b"]).1.Size = 2 ∧
      ¬ ((c.run (World.fresh failing)
          [Call.Log Time.zero "a", Call.Log Time.zero "b"]).1.Size ≤ c.config.FlushLimit) :=
  ⟨sampleEmpty, newClient_sample, rfl, rfl, by decide⟩

/-- C6, amended: for a configuration whose flush limit is not negative, in
every state reached from NewClient(cfg) by a sequence of Log, Flush and Close
calls in which every flush triggered inside Log succeeds, Size() is at most
the client's normalized flush capacity (which the calls do not change); and
the capacity is reached, by that many Log calls. -/
theorem capacity_invariant (cfg : Config) (w : World) (calls : List Call)
    (hlimit : 0 ≤ cfg.FlushLimit) :
    ∃ c : Client, NewClient cfg = .ok c ∧
      (autoFlushesSucceed c w calls →
        (c.run w calls).1.Size ≤ c.config.FlushLimit ∧
        (c.run w calls).1.config.FlushLimit = c.config.FlushLimit) ∧
      (∃ logs : List (Time × String),
        (c.run w (logCalls logs)).1.Size = c.config.FlushLimit) := by
  obtain ⟨u, -, hc⟩ := newClient_ok cfg
  have hcap : 1 ≤ (if cfg.FlushLimit = 0 then DefaultFlushLimit else cfg.FlushLimit) := by
    split
    · decide
    · omega
  refine ⟨_, hc, fun hok => ⟨?_, ?_⟩, ?_⟩
  · exact run_within_capacity calls _ w hcap
      (Int.le_trans (show (0 : Int) ≤ 1 by decide) hcap) hok
  · rw [(run_config calls _ w).1]
  · refine ⟨List.replicate
      (if cfg.FlushLimit = 0 then DefaultFlushLimit else cfg.FlushLimit).toNat (Time.zero, ""), ?_⟩
    rw [run_logs_within _ _ w (by
      show (0 : Int) + _ ≤ (if cfg.FlushLimit = 0 then DefaultFlushLimit else cfg.FlushLimit)
      rw [List.length_replicate]
      omega)]
    show ((([] : List logLineJSON) ++ appended cfg.LogFile (logCalls _)).length : Int) =
      (if cfg.FlushLimit = 0 then DefaultFlushLimit else cfg.FlushLimit)
    rw [List.nil_append, appended_length, List.length_replicate]
    omega

/-- Witness of C6 (amended): capacity 1, three Log calls and a Close on a
network where every call succeeds. -/
theorem capacity_invariant_witness :
    ∃ c : Client, NewClient sampleConfig = .ok c ∧
      (0 : Int) ≤ sampleConfig.FlushLimit ∧
      autoFlushesSucceed c (World.fresh working)
        [Call.Log Time.zero "a", Call.Log Time.zero "b", Call.Log Time.zero "c", Call.Close] ∧
      (c.run (World.fresh working)
        [Call.Log Time.zero "a", Call.Log Time.zero "b", Call.Log Time.zero "c",
          Call.Close]).1.Size ≤ c.config.FlushLimit := by
  obtain ⟨c, hc, h, -⟩ := capacity_invariant sampleConfig (World.fresh working)
    [Call.Log Time.zero "a", Call.Log Time.zero "b", Call.Log Time.zero "c", Call.Close]
    (by decide)
  have hc2 := hc
  rw [newClient_sample] at hc2
  cases hc2
  have hok : autoFlushesSucceed sampleEmpty (World.fresh working)
      [Call.Log Time.zero "a", Call.Log Time.zero "b", Call.Log Time.zero "c", Call.Close] :=
    ⟨fun _ => rfl, fun _ => rfl, fun _ => rfl, trivial, trivial⟩
  exact ⟨_, hc, by decide, hok, (h hok).1⟩

/-! ## Conservation of entries -/

theorem delivered_append (xs ys : List Exchange) :
    delivered (xs ++ ys) = delivered xs ++ delivered ys := by
  simp [delivered]

theorem flush_conserves (c : Client) (w : World) :
    delivered (c.Flush w).2.2.log ++ (c.Flush w).2.1.payload.Lines =
      delivered w.log ++ c.payload.Lines := by
  by_cases h : c.payload.Lines = []
  · rw [flush_empty c w h]
  · cases ht : w.transport w.log.length with
    | none =>
      rw [flush_ok c w h ht]
      simp [World.sent, delivered_append, delivered, ht, request_lines]
    | some err =>
      rw [flush_error c w err h ht]
      simp [World.sent, delivered_append, delivered, ht]

theorem call_conserves (c : Client) (w : World) (call : Call) :
    delivered (c.call w call).2.log ++ (c.call w call).1.payload.Lines =
      delivered w.log ++ c.payload.Lines ++ appended c.config.LogFile [call] := by
  cases call with
  | Log t msg =>
    simp only [Client.call, appended]
    by_cases h : c.Size = c.config.FlushLimit
    · rw [log_flush c w t msg h]
      simp only
      rw [← List.append_assoc, flush_conserves c w]
    · rw [log_no_flush c w t msg h]
      simp
  | Flush => simpa [Client.call, appended] using flush_conserves c w
  | Close => simpa [Client.call, appended, Client.Close] using flush_conserves c w

theorem appended_cons (file : String) (call : Call) (rest : List Call) :
    appended file (call :: rest) = appended file [call] ++ appended file rest := by
  cases call <;> simp [appended]

theorem run_conserves (calls : List Call) : ∀ (c : Client) (w : World),
    delivered (c.run w calls).2.log ++ (c.run w calls).1.payload.Lines =
      delivered w.log ++ c.payload.Lines ++ appended c.config.LogFile calls := by
  induction calls with
  | nil => intro c w; simp [Client.run, appended]
  | cons call rest ih =>
    intro c w
    rw [Client.run, ih, call_conserves, (call_config c w call).1, appended_cons _ call rest]
    simp

/-- C9: no entry is lost, duplicated or reordered. For the client NewClient
returns, on a network with nothing sent yet and any pattern of transmission
successes and failures, after any sequence of Log, Flush and Close calls the
lines of the successful transmissions, concatenated in the order of sending,
followed by the current buffer, are exactly the entries appended so far, in
call order. -/
theorem no_entry_lost (cfg : Config) (transport : Nat → Option GoError) (calls : List Call) :
    ∃ c : Client, NewClient cfg = .ok c ∧
      delivered (c.run (World.fresh transport) calls).2.log ++
        (c.run (World.fresh transport) calls).1.payload.Lines =
      appended cfg.LogFile calls := by
  obtain ⟨u, -, hc⟩ := newClient_ok cfg
  refine ⟨_, hc, ?_⟩
  rw [run_conserves]
  simp [World.fresh, delivered]

/-! ## Close, the frame, the payload -/

/-- C12: Close is Flush. For every client state and every transport, Close
returns the same error, makes the same calls of `http.Post` and leaves the same
client as one Flush call; in particular, on a non-empty buffer Close makes
exactly one transmission attempt, carrying the whole buffer, and when that
attempt succeeds it returns nil and leaves Size() == 0. -/
theorem close_is_flush (c : Client) (w : World) :
    c.Close w = c.Flush w ∧
    (c.Close w).1 = (c.Flush w).1 ∧
    (c.Close w).2.1 = (c.Flush w).2.1 ∧
    (c.Close w).2.2.log = (c.Flush w).2.2.log ∧
    (c.payload.Lines ≠ [] →
      ∃ x : Exchange, (c.Close w).2.2.log = w.log ++ [x] ∧
        x.request.lines = c.payload.Lines ∧
        x.err = w.transport w.log.length ∧
        (x.err = none → (c.Close w).1 = none ∧ (c.Close w).2.1.Size = 0)) := by
  refine ⟨rfl, rfl, rfl, rfl, fun hne => ?_⟩
  refine ⟨{ request := c.request, err := w.transport w.log.length }, ?_, request_lines c, rfl, ?_⟩
  · rw [Client.Close, flush_world c w hne]
    rfl
  · intro ht
    rw [Client.Close, flush_ok c w hne ht]
    exact ⟨rfl, rfl⟩

/-- Witness of C12: Close on the sample client holding one line, on a network
where every call succeeds. -/
theorem close_is_flush_witness :
    sampleClient.payload.Lines ≠ [] ∧
    ∃ x : Exchange, (sampleClient.Close (World.fresh working)).2.2.log = [] ++ [x] ∧
      x.request.lines = sampleClient.payload.Lines ∧
      x.err = none ∧
      (x.err = none → (sampleClient.Close (World.fresh working)).1 = none ∧
        (sampleClient.Close (World.fresh working)).2.1.Size = 0) :=
  ⟨by decide, (close_is_flush sampleClient (World.fresh working)).2.2.2.2 (by decide)⟩

theorem flush_lines_subset (c : Client) (w : World) :
    ∀ e ∈ (c.Flush w).2.1.payload.Lines, e ∈ c.payload.Lines := by
  by_cases h : c.payload.Lines = []
  · rw [flush_empty c w h]
    exact fun e he => he
  · cases ht : w.transport w.log.length with
    | none =>
      rw [flush_ok c w h ht]
      intro e he
      cases he
    | some err =>
      rw [flush_error c w err h ht]
      exact fun e he => he

theorem call_files (c : Client) (w : World) (call : Call)
    (h : ∀ e ∈ c.payload.Lines, e.File = c.config.LogFile) :
    ∀ e ∈ (c.call w call).1.payload.Lines, e.File = c.config.LogFile := by
  cases call with
  | Log t msg =>
    simp only [Client.call]
    by_cases hs : c.Size = c.config.FlushLimit
    · rw [log_flush c w t msg hs]
      intro e he
      rcases List.mem_append.1 he with he | he
      · exact h e (flush_lines_subset c w e he)
      · rw [List.mem_singleton.1 he]
        rfl
    · rw [log_no_flush c w t msg hs]
      intro e he
      rcases List.mem_append.1 he with he | he
      · exact h e he
      · rw [List.mem_singleton.1 he]
        rfl
  | Flush => exact fun e he => h e (flush_lines_subset c w e he)
  | Close => exact fun e he => h e (flush_lines_subset c w e he)

theorem run_files (calls : List Call) : ∀ (c : Client) (w : World),
    (∀ e ∈ c.payload.Lines, e.File = c.config.LogFile) →
    ∀ e ∈ (c.run w calls).1.payload.Lines, e.File = c.config.LogFile := by
  induction calls with
  | nil => intro c w h; exact h
  | cons call rest ih =>
    intro c w h
    rw [Client.run]
    have h1 := call_files c w call h
    have hcfg := (call_config c w call).1
    have h2 := ih (c.call w call).1 (c.call w call).2 (by rw [hcfg]; exact h1)
    rw [hcfg] at h2
    exact h2

/-- C13: the stream-identity invariant. For the client NewClient returns, in
every state reached by any sequence of Log, Flush and Close calls, on any
network, every entry in the buffer has file equal to cfg.LogFile, which is
also still the client's configured stream identity. -/
theorem stream_identity_invariant (cfg : Config) (w : World) (calls : List Call) :
    ∃ c : Client, NewClient cfg = .ok c ∧
      (∀ e ∈ (c.run w calls).1.payload.Lines, e.File = cfg.LogFile) ∧
      (c.run w calls).1.config.LogFile = cfg.LogFile := by
  obtain ⟨u, -, hc⟩ := newClient_ok cfg
  refine ⟨_, hc, ?_, ?_⟩
  · exact run_files calls _ w (fun e he => by cases he)
  · rw [(run_config calls _ w).1]

/-- C14: the frame of the operations. Log, Flush and Close return a client
with the same configuration (credential, hostname, stream identity, flush
capacity) and the same endpoint URL, whatever the transport does, and so does
any sequence of such calls; Size returns a number and no client at all, so it
changes nothing. Only the buffer can differ. -/
theorem operations_frame (c : Client) (w : World) (t : Time) (msg : String)
    (calls : List Call) :
    ((c.Log w t msg).1.config = c.config ∧ (c.Log w t msg).1.apiURL = c.apiURL) ∧
    ((c.Flush w).2.1.config = c.config ∧ (c.Flush w).2.1.apiURL = c.apiURL) ∧
    ((c.Close w).2.1.config = c.config ∧ (c.Close w).2.1.apiURL = c.apiURL) ∧
    ((c.run w calls).1.config = c.config ∧ (c.run w calls).1.apiURL = c.apiURL) ∧
    (c.Log w t msg).1 = { c with payload := (c.Log w t msg).1.payload } ∧
    (c.Flush w).2.1 = { c with payload := (c.Flush w).2.1.payload } ∧
    (c.Close w).2.1 = { c with payload := (c.Close w).2.1.payload } ∧
    c.Size = (c.payload.Lines.length : Int) := by
  have hl := log_config c w t msg
  have hf := flush_config c w
  refine ⟨hl, hf, hf, run_config calls c w, ?_, ?_, ?_, rfl⟩
  · cases hc : (c.Log w t msg).1 with
    | mk cfg p u =>
      rw [hc] at hl
      simp only at hl
      rw [hl.1, hl.2]
  · cases hc : (c.Flush w).2.1 with
    | mk cfg p u =>
      rw [hc] at hf
      simp only at hf
      rw [hf.1, hf.2]
  · show (c.Flush w).2.1 = { c with payload := (c.Flush w).2.1.payload }
    cases hc : (c.Flush w).2.1 with
    | mk cfg p u =>
      rw [hc] at hf
      simp only at hf
      rw [hf.1, hf.2]

/-- C15: the payload Flush serializes (it does so exactly when the buffer is
not empty) is the body of the one request it sends: a JSON object with the
single key lines, whose value is an array with one object per buffered entry,
in buffer order, each with exactly the keys timestamp (the entry's integer
number of milliseconds), line and file (strings), carrying that entry's
values. -/
theorem flush_payload_shape (c : Client) (w : World) (hne : c.payload.Lines ≠ []) :
    jsonMarshal c.payload = .ok c.payload.toJSON ∧
    c.payload.toJSON =
      .obj [("lines", .arr (c.payload.Lines.map (fun l =>
        .obj [("timestamp", .num l.Timestamp), ("line", .str l.Line), ("file", .str l.File)])))] ∧
    ∃ x : Exchange, (c.Flush w).2.2.log = w.log ++ [x] ∧
      x.request.body =
        .obj [("lines", .arr (c.payload.Lines.map (fun l =>
          .obj [("timestamp", .num l.Timestamp), ("line", .str l.Line),
                ("file", .str l.File)])))] := by
  have hj : c.payload.toJSON =
      .obj [("lines", .arr (c.payload.Lines.map (fun l =>
        .obj [("timestamp", .num l.Timestamp), ("line", .str l.Line),
              ("file", .str l.File)])))] := by
    unfold payloadJSON.toJSON
    rw [if_neg hne]
    rfl
  refine ⟨rfl, hj, { request := c.request, err := w.transport w.log.length }, ?_, ?_⟩
  · rw [flush_world c w hne]
    rfl
  · exact hj

/-- Witness of C15: the body sent for the sample client holding one line. -/
theorem flush_payload_shape_witness :
    sampleClient.payload.Lines ≠ [] ∧
    ∃ x : Exchange, (sampleClient.Flush (World.fresh working)).2.2.log = [] ++ [x] ∧
      x.request.body =
        .obj [("lines", .arr [.obj [("timestamp", .num 1500), ("line", .str "hello"),
          ("file", .str "app.log")]])] :=
  ⟨by decide, (flush_payload_shape sampleClient (World.fresh working) (by decide)).2.2⟩

/-! ## When Log flushes -/

/-- What one Log call does to the network, for a client whose capacity is not
zero: one exchange carrying the buffer when Size() equals the capacity,
nothing otherwise. -/
theorem log_network (c : Client) (w : World) (t : Time) (msg : String)
    (hcap : c.config.FlushLimit ≠ 0) :
    (c.Size = c.config.FlushLimit →
      (c.Log w t msg).2 = w.sent c.request ∧ c.request.lines = c.payload.Lines) ∧
    (c.Size ≠ c.config.FlushLimit → (c.Log w t msg).2 = w) := by
  constructor
  · intro h
    have hne : c.payload.Lines ≠ [] := by
      intro h0
      rw [(size_eq_zero_iff c).2 h0] at h
      exact hcap h.symm
    rw [log_flush c w t msg h]
    exact ⟨flush_world c w hne, request_lines c⟩
  · intro h
    rw [log_no_flush c w t msg h]

/-- C17: flushing inside Log happens exactly at the capacity. For the client
NewClient returns, in any state reached by Log, Flush and Close calls, a
further Log call makes a transmission attempt if and only if Size() equals the
flush capacity just before the append: then it makes exactly one (a single
exchange is added, carrying the buffer as it was), and otherwise the network
is left untouched. -/
theorem log_flushes_iff_at_capacity (cfg : Config) (w : World) (calls : List Call)
    (t : Time) (msg : String) :
    ∃ c : Client, NewClient cfg = .ok c ∧
      ((c.run w calls).1.Size = (c.run w calls).1.config.FlushLimit →
        ∃ x : Exchange,
          (((c.run w calls).1.Log (c.run w calls).2 t msg).2.log =
            (c.run w calls).2.log ++ [x]) ∧
          x.request.lines = (c.run w calls).1.payload.Lines) ∧
      ((c.run w calls).1.Size ≠ (c.run w calls).1.config.FlushLimit →
        ((c.run w calls).1.Log (c.run w calls).2 t msg).2 = (c.run w calls).2) ∧
      ((((c.run w calls).1.Log (c.run w calls).2 t msg).2.log.length =
          (c.run w calls).2.log.length + 1) ↔
        (c.run w calls).1.Size = (c.run w calls).1.config.FlushLimit) := by
  obtain ⟨u, -, hc⟩ := newClient_ok cfg
  refine ⟨_, hc, ?_⟩
  have hcap0 : (if cfg.FlushLimit = 0 then DefaultFlushLimit else cfg.FlushLimit) ≠ 0 := by
    split
    · decide
    · assumption
  generalize hc0 : (Client.mk
    { cfg with FlushLimit := if cfg.FlushLimit = 0 then DefaultFlushLimit else cfg.FlushLimit }
    { Lines := [] } u) = c0
  have hcap1 : c0.config.FlushLimit ≠ 0 := by
    rw [← hc0]; exact hcap0
  have hcap : (c0.run w calls).1.config.FlushLimit ≠ 0 := by
    rw [(run_config calls c0 w).1]; exact hcap1
  have hn := log_network (c0.run w calls).1 (c0.run w calls).2 t msg hcap
  refine ⟨fun h => ?_, hn.2, ?_⟩
  · refine ⟨{ request := (c0.run w calls).1.request,
              err := (c0.run w calls).2.transport (c0.run w calls).2.log.length }, ?_, (hn.1 h).2⟩
    rw [(hn.1 h).1]
    rfl
  · constructor
    · intro hlen
      by_contra h
      rw [hn.2 h] at hlen
      omega
    · intro h
      rw [(hn.1 h).1]
      simp [World.sent]

/-- Witness of C17: capacity 1; after one Log call Size() equals the capacity
and the next Log call sends one request; on the fresh client (Size() == 0) a
Log call sends nothing. -/
theorem log_flushes_iff_at_capacity_witness :
    ∃ c : Client, NewClient sampleConfig = .ok c ∧
      (c.run (World.fresh working) [Call.Log Time.zero "a"]).1.Size =
        (c.run (World.fresh working) [Call.Log Time.zero "a"]).1.config.FlushLimit ∧
      (∃ x : Exchange,
        (((c.run (World.fresh working) [Call.Log Time.zero "a"]).1.Log
          (c.run (World.fresh working) [Call.Log Time.zero "a"]).2 Time.zero "b").2.log =
            (c.run (World.fresh working) [Call.Log Time.zero "a"]).2.log ++ [x]) ∧
        x.request.lines =
          (c.run (World.fresh working) [Call.Log Time.zero "a"]).1.payload.Lines) := by
  obtain ⟨c, hc, h, -, -⟩ := log_flushes_iff_at_capacity sampleConfig (World.fresh working)
    [Call.Log Time.zero "a"] Time.zero "b"
  have hc2 := hc
  rw [newClient_sample] at hc2
  cases hc2
  exact ⟨_, hc, by decide, h (by decide)⟩

/-- C18: the complete postcondition of Log on the buffer. For every client
state with buffer B, every (t, msg) and every transport, with e the entry
built from (t, msg) and the client's stream identity: after Log the buffer is
[e] if Size() equalled the flush capacity and the triggered flush returned
nil, and B followed by e in every other case (no flush triggered, or the
triggered flush failed); so e is always the last buffered entry and Size()
afterwards is 1 or the previous size plus 1. -/
theorem log_postcondition (c : Client) (w : World) (t : Time) (msg : String) :
    (c.Log w t msg).1.payload.Lines =
      (if c.Size = c.config.FlushLimit ∧ (c.Flush w).1 = none
        then [entryOf c.config.LogFile t msg]
        else c.payload.Lines ++ [entryOf c.config.LogFile t msg]) ∧
    (c.Log w t msg).1.payload.Lines.getLast? = some (entryOf c.config.LogFile t msg) ∧
    ((c.Log w t msg).1.Size = 1 ∨ (c.Log w t msg).1.Size = c.Size + 1) := by
  have key : (c.Log w t msg).1.payload.Lines =
      (if c.Size = c.config.FlushLimit ∧ (c.Flush w).1 = none
        then [entryOf c.config.LogFile t msg]
        else c.payload.Lines ++ [entryOf c.config.LogFile t msg]) := by
    by_cases h : c.Size = c.config.FlushLimit
    · rw [log_flush c w t msg h]
      by_cases hne : c.payload.Lines = []
      · rw [flush_empty c w hne]
        simp [h, hne]
      · cases ht : w.transport w.log.length with
        | none =>
          rw [flush_ok c w hne ht]
          simp [h]
        | some err =>
          rw [flush_error c w err hne ht]
          simp [h]
    · rw [log_no_flush c w t msg h]
      simp [h]
  refine ⟨key, ?_, ?_⟩
  · rw [key]
    split <;> simp
  · simp only [Client.Size, key]
    split
    · left; simp
    · right; simp

/-! ## Beyond the capacity -/

/-- Log calls on a client whose buffer is already above the capacity only
append. -/
theorem run_logs_beyond (logs : List (Time × String)) : ∀ (c : Client) (w : World),
    c.config.FlushLimit < c.Size →
    c.run w (logCalls logs) =
      ({ c with payload :=
          { Lines := c.payload.Lines ++ appended c.config.LogFile (logCalls logs) } }, w) := by
  induction logs with
  | nil => intro c w _; simp [logCalls, Client.run, appended]
  | cons p logs ih =>
    intro c w h
    have hne : c.Size ≠ c.config.FlushLimit := by omega
    simp only [logCalls, List.map_cons, Client.run, Client.call]
    rw [log_no_flush c w p.1 p.2 hne]
    have h2 := ih { c with payload :=
      { Lines := c.payload.Lines ++ [entryOf c.config.LogFile p.1 p.2] } } w (by
        simp only [Client.Size, List.length_append, List.length_cons, List.length_nil,
          Nat.cast_add, Nat.cast_one] at h ⊢
        omega)
    simp only [logCalls] at h2
    rw [h2]
    simp [appended]

/-- C20: automatic flushing does not resume once the capacity is overshot.
From every client state with Size() strictly above the flush capacity, any
sequence of Log calls leaves the network untouched (no transmission attempt)
and appends its entries to the buffer, so Size() grows by exactly one per
call and stays above the capacity. -/
theorem overshoot_never_flushes (c : Client) (w : World) (logs : List (Time × String))
    (h : c.config.FlushLimit < c.Size) :
    (c.run w (logCalls logs)).2 = w ∧
    (c.run w (logCalls logs)).1.payload.Lines =
      c.payload.Lines ++ appended c.config.LogFile (logCalls logs) ∧
    (c.run w (logCalls logs)).1.Size = c.Size + (logs.length : Int) ∧
    (c.run w (logCalls logs)).1.config.FlushLimit < (c.run w (logCalls logs)).1.Size := by
  rw [run_logs_beyond logs c w h]
  have hl := appended_length c.config.LogFile logs
  refine ⟨rfl, rfl, ?_, ?_⟩
  · simp only [Client.Size, List.length_append, hl, Nat.cast_add]
  · simp only [Client.Size, List.length_append, hl, Nat.cast_add] at h ⊢
    omega

/-- Witness of C20: the state reached with capacity 1 when the flush triggered
by the second Log call fails (Size() == 2), followed by two more Log calls on
a network that would now succeed. -/
theorem overshoot_never_flushes_witness :
    (sampleEmpty.run (World.fresh failing)
      [Call.Log Time.zero "a", Call.Log Time.zero "b"]).1.config.FlushLimit <
      (sampleEmpty.run (World.fresh failing)
        [Call.Log Time.zero "a", Call.Log Time.zero "b"]).1.Size ∧
    ((sampleEmpty.run (World.fresh failing)
      [Call.Log Time.zero "a", Call.Log Time.zero "b"]).1.run (World.fresh working)
        (logCalls [(Time.zero, "c"), (Time.zero, "d")])).2 = World.fresh working ∧
    ((sampleEmpty.run (World.fresh failing)
      [Call.Log Time.zero "a", Call.Log Time.zero "b"]).1.run (World.fresh working)
        (logCalls [(Time.zero, "c"), (Time.zero, "d")])).1.Size =
      (sampleEmpty.run (World.fresh failing)
        [Call.Log Time.zero "a", Call.Log Time.zero "b"]).1.Size + 2 :=
  ⟨by decide,
   (overshoot_never_flushes _ (World.fresh working) [(Time.zero, "c"), (Time.zero, "d")]
      (by decide)).1,
   (overshoot_never_flushes _ (World.fresh working) [(Time.zero, "c"), (Time.zero, "d")]
      (by decide)).2.2.1⟩

/-! ## Batches under a transport that always succeeds -/

/-- The state after at least one Log call on a client that started with an
empty buffer and capacity `k ≥ 1`, on a network where every call succeeds:
`q` full batches of `k` lines were sent and `r + 1` lines are buffered, where
the number of calls is `k * q + r + 1` and `r < k`. -/
theorem run_logs_batches (k : Nat) (hk : 1 ≤ k) (c : Client) (w : World)
    (hcap : c.config.FlushLimit = (k : Int)) (hempty : c.payload.Lines = [])
    (hw : ∀ i, w.transport i = none) (logs : List (Time × String)) :
    logs ≠ [] →
    ∃ (new : List Exchange) (q r : Nat),
      (c.run w (logCalls logs)).2.log = w.log ++ new ∧
      (c.run w (logCalls logs)).2.transport = w.transport ∧
      new.length = q ∧
      (∀ x ∈ new, x.err = none ∧ x.request.lines.length = k) ∧
      (c.run w (logCalls logs)).1.payload.Lines.length = r + 1 ∧
      r < k ∧ logs.length = k * q + r + 1 := by
  induction logs using List.reverseRecOn with
  | nil => intro h; exact absurd rfl h
  | append_singleton logs p ih =>
    intro _
    rw [logCalls_append, run_append]
    simp only [logCalls, List.map_cons, List.map_nil, Client.run, Client.call]
    have hcfg : (c.run w (List.map (fun p => Call.Log p.1 p.2) logs)).1.config.FlushLimit =
        (k : Int) := by
      rw [(run_config _ c w).1]; exact hcap
    by_cases hl : logs = []
    · subst hl
      have hne : c.Size ≠ c.config.FlushLimit := by
        rw [(size_eq_zero_iff c).2 hempty, hcap]
        omega
      simp only [List.map_nil, Client.run]
      rw [log_no_flush c w p.1 p.2 hne]
      exact ⟨[], 0, 0, by simp, rfl, rfl, by simp, by simp [hempty], by omega, by simp⟩
    · obtain ⟨new, q, r, h1, h2, h3, h4, h5, h6, h7⟩ := ih hl
      simp only [logCalls] at h1 h2 h5
      generalize c.run w (List.map (fun p => Call.Log p.1 p.2) logs) = st at h1 h2 h5 hcfg ⊢
      by_cases hr : r + 1 = k
      · have hsize : st.1.Size = st.1.config.FlushLimit := by
          rw [hcfg, Client.Size, h5, hr]
        have hne : st.1.payload.Lines ≠ [] := by
          intro h0
          rw [h0] at h5
          simp at h5
        have ht : st.2.transport st.2.log.length = none := by
          rw [h2]; exact hw _
        rw [log_at_capacity_ok st.1 st.2 p.1 p.2 hsize hne ht]
        refine ⟨new ++ [{ request := st.1.request,
                          err := st.2.transport st.2.log.length }], q + 1, 0, ?_, h2, ?_, ?_,
          rfl, by omega, ?_⟩
        · simp only [World.sent, h1, List.append_assoc]
        · simp [h3]
        · intro x hx
          rcases List.mem_append.1 hx with hx | hx
          · exact h4 x hx
          · rw [List.mem_singleton.1 hx]
            refine ⟨ht, ?_⟩
            simp only [request_lines, h5, hr]
        · simp only [List.length_append, List.length_cons, List.length_nil, h7, Nat.mul_succ]
          omega
      · have hsize : st.1.Size ≠ st.1.config.FlushLimit := by
          rw [hcfg, Client.Size, h5]
          intro h0
          exact hr (by exact_mod_cast h0)
        rw [log_no_flush st.1 st.2 p.1 p.2 hsize]
        refine ⟨new, q, r + 1, h1, h2, h3, h4, ?_, by omega, ?_⟩
        · simp [h5]
        · simp only [List.length_append, List.length_cons, List.length_nil, h7]
          omega

theorem batch_numbers (k q r n : Nat) (hr : r < k) (hn : n = k * q + r + 1) :
    ((n : Int) - 1) / (k : Int) = (q : Int) ∧ ((n : Int) - 1) % (k : Int) = (r : Int) := by
  have hk : 0 < k := by omega
  have h1 : ((n : Int) - 1) = ((k * q + r : Nat) : Int) := by
    rw [hn]; push_cast; ring
  have h2 := (Nat.div_mod_unique hk (a := k * q + r) (d := q) (c := r)).2 ⟨by ring, hr⟩
  have h3 : ((k * q + r : Nat) : Int) / (k : Int) = (((k * q + r) / k : Nat) : Int) := by
    norm_cast
  have h4 : ((k * q + r : Nat) : Int) % (k : Int) = (((k * q + r) % k : Nat) : Int) := by
    norm_cast
  rw [h1, h3, h4, h2.1, h2.2]
  exact ⟨rfl, rfl⟩

/-- C19: batches under a transport that always succeeds. For the client
NewClient returns, if its flush capacity c is positive, then after n ≥ 1 Log
calls and no explicit Flush, on a network where every call succeeds, exactly
(n - 1) div c transmissions have been made, each successful and each carrying
exactly c entries, and Size() == ((n - 1) mod c) + 1. -/
theorem batch_arithmetic (cfg : Config) (w : World) (logs : List (Time × String))
    (hw : ∀ i, w.transport i = none) (hn : logs ≠ []) :
    ∃ c : Client, NewClient cfg = .ok c ∧
      (0 < c.config.FlushLimit →
        ∃ new : List Exchange,
          (c.run w (logCalls logs)).2.log = w.log ++ new ∧
          (new.length : Int) = ((logs.length : Int) - 1) / c.config.FlushLimit ∧
          (∀ x ∈ new, x.err = none ∧
            (x.request.lines.length : Int) = c.config.FlushLimit) ∧
          (c.run w (logCalls logs)).1.Size =
            ((logs.length : Int) - 1) % c.config.FlushLimit + 1) := by
  obtain ⟨u, -, hc⟩ := newClient_ok cfg
  refine ⟨_, hc, fun hpos => ?_⟩
  generalize hc0 : (Client.mk
    { cfg with FlushLimit := if cfg.FlushLimit = 0 then DefaultFlushLimit else cfg.FlushLimit }
    { Lines := [] } u) = c0 at hpos ⊢
  have hempty : c0.payload.Lines = [] := by rw [← hc0]
  obtain ⟨k, hk⟩ := Int.eq_ofNat_of_zero_le (Int.le_of_lt hpos)
  have hk1 : 1 ≤ k := by omega
  obtain ⟨new, q, r, h1, -, h3, h4, h5, h6, h7⟩ :=
    run_logs_batches k hk1 c0 w hk hempty hw logs hn
  have hb := batch_numbers k q r logs.length h6 h7
  refine ⟨new, h1, ?_, ?_, ?_⟩
  · rw [hk, hb.1, h3]
  · intro x hx
    refine ⟨(h4 x hx).1, ?_⟩
    rw [hk, (h4 x hx).2]
  · rw [hk, hb.2, Client.Size, h5]
    push_cast
    ring

/-- Witness of C19: capacity 1 and three Log calls on a network where every
call succeeds: two transmissions of one entry each, one entry buffered. -/
theorem batch_arithmetic_witness :
    ∃ c : Client, NewClient sampleConfig = .ok c ∧
      (0 : Int) < c.config.FlushLimit ∧
      ∃ new : List Exchange,
        (c.run (World.fresh working)
          (logCalls [(Time.zero, "a"), (Time.zero, "b"), (Time.zero, "c")])).2.log =
            [] ++ new ∧
        (new.length : Int) = 2 ∧
        (c.run (World.fresh working)
          (logCalls [(Time.zero, "a"), (Time.zero, "b"), (Time.zero, "c")])).1.Size = 1 := by
  obtain ⟨c, hc, h⟩ := batch_arithmetic sampleConfig (World.fresh working)
    [(Time.zero, "a"), (Time.zero, "b"), (Time.zero, "c")] (fun _ => rfl) (by decide)
  have hc2 := hc
  rw [newClient_sample] at hc2
  cases hc2
  obtain ⟨new, h1, h2, -, h4⟩ := h (by decide)
  exact ⟨_, hc, by decide, new, h1, h2, h4⟩

/-! ## The query of the endpoint URL -/

theorem unhex_upperhex (n : Nat) (h : n < 16) : unhex (upperhex n) = some n := by
  interval_cases n <;> decide

theorem upperhex_plain (n : Nat) :
    upperhex n ≠ '&' ∧ upperhex n ≠ '=' ∧ upperhex n ≠ ';' := by
  by_cases h : n < 16
  · interval_cases n <;> decide
  · have : upperhex n = '0' := by
      unfold upperhex
      exact List.getD_eq_default _ _ (by simpa using h)
    rw [this]
    decide

theorem hex_byte (b : UInt8) : UInt8.ofNat (16 * (b.toNat / 16) + b.toNat % 16) = b := by
  rw [Nat.div_add_mod]
  rcases b with ⟨bv⟩
  show UInt8.mk (BitVec.ofNat 8 bv.toNat) = UInt8.mk bv
  congr 1
  apply BitVec.eq_of_toNat_eq
  simp [Nat.mod_eq_of_lt bv.isLt]

theorem cut_append (sep : Char) (a b : List Char) (h : sep ∉ a) :
    cut sep (a ++ sep :: b) = (a, b, true) := by
  induction a with
  | nil => simp [cut]
  | cons c cs ih =>
    have hc : c ≠ sep := fun e => h (by simp [e])
    have hcs : sep ∉ cs := fun e => h (by simp [e])
    simp [cut, hc, ih hcs]

theorem splitOn_not_mem (sep : Char) (a : List Char) (h : sep ∉ a) : splitOn sep a = [a] := by
  induction a with
  | nil => rfl
  | cons c cs ih =>
    have hc : c ≠ sep := fun e => h (by simp [e])
    have hcs : sep ∉ cs := fun e => h (by simp [e])
    simp [splitOn, hc, ih hcs]

theorem splitOn_append (sep : Char) (a b : List Char) (h : sep ∉ a) :
    splitOn sep (a ++ sep :: b) = a :: splitOn sep b := by
  induction a with
  | nil => simp [splitOn]
  | cons c cs ih =>
    have hc : c ≠ sep := fun e => h (by simp [e])
    have hcs : sep ∉ cs := fun e => h (by simp [e])
    simp [splitOn, hc, ih hcs]

theorem queryUnescape_cons (c : Char) (rest : List Char) :
    queryUnescape (c :: rest) =
      if c = '%' then
        match rest with
        | a :: b :: rest2 =>
          match unhex a, unhex b, queryUnescape rest2 with
          | some x, some y, some bs => some (UInt8.ofNat (16 * x + y) :: bs)
          | _, _, _ => none
        | _ => none
      else if c = '+' then (queryUnescape rest).map (fun bs => 32 :: bs)
      else (queryUnescape rest).map (fun bs => String.utf8EncodeChar c ++ bs) := by
  cases rest with
  | nil => rfl
  | cons a r =>
    cases r with
    | nil => rfl
    | cons b r2 => rfl

theorem queryUnescape_hex (bs : List UInt8) (rest : List Char) (r : List UInt8)
    (h : queryUnescape rest = some r) :
    queryUnescape
      (bs.flatMap (fun b => ['%', upperhex (b.toNat / 16), upperhex (b.toNat % 16)]) ++ rest) =
      some (bs ++ r) := by
  induction bs with
  | nil => simpa using h
  | cons b bs ih =>
    have h1 : unhex (upperhex (b.toNat / 16)) = some (b.toNat / 16) :=
      unhex_upperhex _ (by have := b.toNat_lt; omega)
    have h2 : unhex (upperhex (b.toNat % 16)) = some (b.toNat % 16) :=
      unhex_upperhex _ (Nat.mod_lt _ (by decide))
    have hshape : (b :: bs).flatMap
        (fun b => ['%', upperhex (b.toNat / 16), upperhex (b.toNat % 16)]) ++ rest =
        '%' :: upperhex (b.toNat / 16) :: upperhex (b.toNat % 16) ::
          (bs.flatMap (fun b => ['%', upperhex (b.toNat / 16), upperhex (b.toNat % 16)]) ++
            rest) := by
      simp [List.flatMap_cons]
    rw [hshape, queryUnescape_cons, if_pos rfl]
    simp only [h1, h2, ih, hex_byte, List.cons_append]

theorem shouldEscape_percent : shouldEscape '%' .encodeQueryComponent = true := by
  decide

theorem shouldEscape_plus : shouldEscape '+' .encodeQueryComponent = true := by
  decide

theorem escapeChar_space : escapeChar .encodeQueryComponent ' ' = ['+'] := by
  decide

theorem escapeChar_escaped (c : Char) (hsp : c ≠ ' ')
    (he : shouldEscape c .encodeQueryComponent = true) :
    escapeChar .encodeQueryComponent c =
      (String.utf8EncodeChar c).flatMap
        (fun b => ['%', upperhex (b.toNat / 16), upperhex (b.toNat % 16)]) := by
  unfold escapeChar
  rw [if_neg (fun h => hsp h.1), if_pos he]

theorem escapeChar_kept (c : Char) (he : ¬ shouldEscape c .encodeQueryComponent = true) :
    escapeChar .encodeQueryComponent c = [c] := by
  have hsp : c ≠ ' ' := fun e => he (e ▸ by decide)
  unfold escapeChar
  rw [if_neg (fun h => hsp h.1), if_neg he]

theorem queryUnescape_escapeChar (c : Char) (rest : List Char) (r : List UInt8)
    (h : queryUnescape rest = some r) :
    queryUnescape (escapeChar .encodeQueryComponent c ++ rest) =
      some (String.utf8EncodeChar c ++ r) := by
  by_cases hsp : c = ' '
  · subst hsp
    rw [escapeChar_space, List.singleton_append, queryUnescape_cons,
      if_neg (by decide), if_pos rfl, h]
    rfl
  · by_cases he : shouldEscape c .encodeQueryComponent = true
    · rw [escapeChar_escaped c hsp he]
      exact queryUnescape_hex _ rest r h
    · have hp : c ≠ '%' := fun e => he (e ▸ shouldEscape_percent)
      have hq : c ≠ '+' := fun e => he (e ▸ shouldEscape_plus)
      rw [escapeChar_kept c he, List.singleton_append, queryUnescape_cons,
        if_neg hp, if_neg hq, h]
      rfl

theorem queryUnescape_escape (s : List Char) (rest : List Char) (r : List UInt8)
    (h : queryUnescape rest = some r) :
    queryUnescape (s.flatMap (escapeChar .encodeQueryComponent) ++ rest) =
      some (bytesOf s ++ r) := by
  induction s with
  | nil => simpa [bytesOf] using h
  | cons c cs ih =>
    simp only [List.flatMap_cons, List.append_assoc, bytesOf]
    exact queryUnescape_escapeChar c _ _ ih

/-- Unescaping undoes escaping: the bytes read back from `QueryEscape(s)` are
the bytes of `s`. -/
theorem queryUnescape_queryEscape (s : String) :
    queryUnescape (QueryEscape s).data = some (bytesOf s.data) := by
  have := queryUnescape_escape s.data [] [] rfl
  simpa [QueryEscape, escape] using this

theorem escapeChar_plain (c x : Char) (hx : x ∈ escapeChar .encodeQueryComponent c) :
    x ≠ '&' ∧ x ≠ '=' ∧ x ≠ ';' := by
  by_cases hsp : c = ' '
  · rw [hsp, escapeChar_space, List.mem_singleton] at hx
    subst hx
    decide
  · by_cases he : shouldEscape c .encodeQueryComponent = true
    · rw [escapeChar_escaped c hsp he] at hx
      simp only [List.mem_flatMap, List.mem_cons, List.mem_singleton, List.not_mem_nil,
        or_false] at hx
      obtain ⟨b, -, hb⟩ := hx
      rcases hb with hb | hb | hb
      · subst hb; decide
      · subst hb; exact upperhex_plain _
      · subst hb; exact upperhex_plain _
    · rw [escapeChar_kept c he, List.mem_singleton] at hx
      subst hx
      refine ⟨fun e => he (e ▸ ?_), fun e => he (e ▸ ?_), fun e => he (e ▸ ?_)⟩ <;> decide

theorem queryEscape_plain (s : String) :
    '&' ∉ (QueryEscape s).data ∧ '=' ∉ (QueryEscape s).data ∧ ';' ∉ (QueryEscape s).data := by
  have key : ∀ x ∈ (QueryEscape s).data, x ≠ '&' ∧ x ≠ '=' ∧ x ≠ ';' := by
    intro x hx
    simp only [QueryEscape, escape, List.mem_flatMap] at hx
    obtain ⟨c, -, hc⟩ := hx
    exact escapeChar_plain c x hc
  exact ⟨fun h => (key _ h).1 rfl, fun h => (key _ h).2.1 rfl, fun h => (key _ h).2.2 rfl⟩

theorem queryEscape_hostname : QueryEscape "hostname" = "hostname" := by
  decide

theorem queryEscape_now : QueryEscape "now" = "now" := by
  decide

theorem formatInt_zero_time : FormatInt Time.zero.UnixNano = "-6795364578871345152" := by
  decide

theorem queryEscape_zero_time :
    QueryEscape "-6795364578871345152" = "-6795364578871345152" := by
  decide

theorem sortByKey_hostname_now (h n : String) :
    sortByKey ((Values.empty.Set "hostname" h).Set "now" n) =
      [("hostname", [h]), ("now", [n])] := by
  have h1 : (Values.empty.Set "hostname" h).Set "now" n =
      { entries := [("hostname", [h]), ("now", [n])] } := by
    simp [Values.Set, Values.empty]
  rw [h1]
  have h2 : stringLess "now".data "hostname".data = false := by decide
  simp [sortByKey, insertByKey, h2]

/-- The query `makeIngestURL` builds: the two parameters in key order. -/
theorem encode_hostname_now (h n : String) :
    ((Values.empty.Set "hostname" h).Set "now" n).Encode =
      "hostname=" ++ QueryEscape h ++ "&now=" ++ QueryEscape n := by
  unfold Values.Encode
  rw [sortByKey_hostname_now]
  simp only [List.flatMap_cons, List.flatMap_nil, List.map_cons, List.map_nil,
    List.append_nil, List.singleton_append, queryEscape_hostname, queryEscape_now,
    String.intercalate, String.intercalate.go]
  apply String.ext
  simp [String.data_append]

theorem queryParam_hostname (h : String) :
    queryParam ("hostname".data ++ '=' :: (QueryEscape h).data) =
      some (bytesOf "hostname".data, bytesOf h.data) := by
  have hp := queryEscape_plain h
  have hsemi : ';' ∉ "hostname".data ++ '=' :: (QueryEscape h).data := by
    intro hmem
    rcases List.mem_append.1 hmem with hm | hm
    · revert hm; decide
    · rcases List.mem_cons.1 hm with hm | hm
      · revert hm; decide
      · exact hp.2.2 hm
  unfold queryParam
  rw [if_neg hsemi, cut_append '=' "hostname".data _ (by decide)]
  simp only [queryUnescape_queryEscape]
  have hk : queryUnescape "hostname".data = some (bytesOf "hostname".data) := by decide
  rw [hk]

theorem queryParamsOf_now :
    queryParamsOf (splitOn '&' "now=-6795364578871345152".data) =
      some [(bytesOf "now".data, bytesOf "-6795364578871345152".data)] := by
  decide

/-- Reading back the query `makeIngestURL` builds gives the parameter
`hostname` with the bytes of the host name, then the parameter `now`. -/
theorem queryParams_hostname_now (h : String) :
    queryParams ("hostname=" ++ QueryEscape h ++ "&now=" ++ "-6795364578871345152") =
      some [(bytesOf "hostname".data, bytesOf h.data),
            (bytesOf "now".data, bytesOf "-6795364578871345152".data)] := by
  have hp := queryEscape_plain h
  have hdata : ("hostname=" ++ QueryEscape h ++ "&now=" ++ "-6795364578871345152").data =
      ("hostname".data ++ '=' :: (QueryEscape h).data) ++
        '&' :: "now=-6795364578871345152".data := by
    simp [String.data_append]
  have hamp : '&' ∉ "hostname".data ++ '=' :: (QueryEscape h).data := by
    intro hmem
    rcases List.mem_append.1 hmem with hm | hm
    · revert hm; decide
    · rcases List.mem_cons.1 hm with hm | hm
      · revert hm; decide
      · exact hp.1 hm
  unfold queryParams
  rw [hdata, splitOn_append '&' _ _ hamp]
  have hne : "hostname".data ++ '=' :: (QueryEscape h).data ≠ [] := by
    intro h0
    have := congrArg List.length h0
    simp at this
  rw [queryParamsOf, if_neg hne, queryParam_hostname, queryParamsOf_now]

/-- The URL `makeIngestURL` returns, with its query written out. -/
theorem makeIngestURL_closed (cfg : Config) :
    makeIngestURL cfg =
      .ok { URL.empty with
        Scheme := "https", Host := "logs.logdna.com", Path := "/logs/ingest",
        User := some (User cfg.APIKey),
        RawQuery := "hostname=" ++ QueryEscape cfg.Hostname ++ "&now=" ++
          "-6795364578871345152" } := by
  rw [makeIngestURL_ok, encode_hostname_now, formatInt_zero_time, queryEscape_zero_time]

/-- C11: for every credential and hostname makeIngestURL succeeds, and the URL
it returns has scheme https, host logs.logdna.com, path /logs/ingest, userinfo
equal to the credential (as user name, without password), and a query whose
parameters, read back as `url.ParseQuery` reads them, are hostname, with the
hostname as value, and now (in the raw query the hostname stands in escaped
form). Example: credential "abc" and hostname "host1" give userinfo abc,
the raw query hostname=host1&now=-6795364578871345152 and the URL
https://abc@logs.logdna.com/logs/ingest?hostname=host1&now=-6795364578871345152. -/
theorem makeIngestURL_spec (cfg : Config) :
    ∃ u : URL, makeIngestURL cfg = .ok u ∧
      u.Scheme = "https" ∧ u.Host = "logs.logdna.com" ∧ u.Path = "/logs/ingest" ∧
      u.User = some (User cfg.APIKey) ∧
      (∃ ui : Userinfo, u.User = some ui ∧ ui.username = cfg.APIKey ∧
        ui.passwordSet = false) ∧
      u.RawQuery = "hostname=" ++ QueryEscape cfg.Hostname ++ "&now=" ++
        "-6795364578871345152" ∧
      queryParams u.RawQuery =
        some [(bytesOf "hostname".data, bytesOf cfg.Hostname.data),
              (bytesOf "now".data, bytesOf "-6795364578871345152".data)] ∧
      (∃ v : URL,
        makeIngestURL { APIKey := "abc", LogFile := "app.log", Hostname := "host1",
                        FlushLimit := 0 } = .ok v ∧
        v.User = some (User "abc") ∧
        v.RawQuery = "hostname=host1&now=-6795364578871345152" ∧
        v.String =
          "https://abc@logs.logdna.com/logs/ingest?hostname=host1&now=-6795364578871345152") := by
  refine ⟨_, makeIngestURL_closed cfg, rfl, rfl, rfl, rfl, ⟨_, rfl, rfl, rfl⟩, rfl,
    queryParams_hostname_now cfg.Hostname, ?_⟩
  refine ⟨_, makeIngestURL_closed _, rfl, ?_, ?_⟩
  · decide
  · decide

/-- C16: makeIngestURL is a function of the credential and the hostname alone.
Two configurations that agree on both get the same result, whatever their
stream identity and flush capacity; no clock or other state is read: the now
parameter is the constant that `time.Time{}.UnixNano()` evaluates to. -/
theorem makeIngestURL_pure (cfg cfg2 : Config) (hk : cfg.APIKey = cfg2.APIKey)
    (hh : cfg.Hostname = cfg2.Hostname) :
    makeIngestURL cfg = makeIngestURL cfg2 ∧
    (∀ (file : String) (limit : Int),
      makeIngestURL { cfg with LogFile := file, FlushLimit := limit } = makeIngestURL cfg) ∧
    Time.zero.UnixNano = -6795364578871345152 ∧
    (∃ u : URL, makeIngestURL cfg = .ok u ∧
      u.RawQuery = "hostname=" ++ QueryEscape cfg.Hostname ++ "&now=" ++
        FormatInt Time.zero.UnixNano) := by
  refine ⟨makeIngestURL_congr cfg cfg2 hk hh, fun file limit => ?_, by decide, ?_⟩
  · exact makeIngestURL_congr _ _ rfl rfl
  · refine ⟨_, makeIngestURL_closed cfg, ?_⟩
    rw [formatInt_zero_time]

/-- Witness of C16: two configurations with the same credential and hostname
and different stream identity and flush limit. -/
theorem makeIngestURL_pure_witness :
    sampleConfig.APIKey = defaultConfig.APIKey ∧
    sampleConfig.Hostname = defaultConfig.Hostname ∧
    sampleConfig.FlushLimit ≠ defaultConfig.FlushLimit ∧
    makeIngestURL sampleConfig = makeIngestURL defaultConfig :=
  ⟨rfl, rfl, by decide, (makeIngestURL_pure sampleConfig defaultConfig rfl rfl).1⟩

end Logdna
